import Mathlib

/-!
Verification development for the album record store of this repository
(`source/unified_add_albums.py`, `source/search_albums.py`,
`source/toggle_tag.py`, `source/edit_date.py`, `source/delete_album.py`).

The Python scripts are shallowly embedded: JSON album records become the
`Album` structure, the line-oriented database file becomes a `List Album`
(Python dict iteration order / file line order), `datetime.now().year`
becomes an explicit `cy : Nat` parameter, and `uuid.uuid4()` becomes a
fresh-name counter threaded through the functions.  Scalar JSON values
that can reach the `itemCount` field (integers or strings) are modelled
by `IVal`.
-/

/-- A scalar JSON value that can sit in the `itemCount` field of a record:
either an integer or a string (Python `int` / `str`). -/
inductive IVal where
  | i : Int → IVal
  | s : String → IVal
deriving DecidableEq, Repr

/-- Python `\s` whitespace class (ASCII part, which is all that the inputs
in play can meet). -/
def isWs (c : Char) : Bool :=
  c = ' ' || c = '\t' || c = '\n' || c = '\r' || c = '\x0b' || c = '\x0c'

/-- Drop leading whitespace from a character list. -/
def dropWsLead : List Char → List Char
  | [] => []
  | c :: rest => if isWs c then dropWsLead rest else c :: rest

/-- Characters of `s.strip()`: leading and trailing whitespace removed.
(Defined over `String.data` because the embedding needs definitions the
kernel can evaluate on literals.) -/
def strTrimL (cs : List Char) : List Char :=
  (dropWsLead (dropWsLead cs.reverse).reverse)

/-- Embeds Python `str.strip()`. -/
def strTrim (s : String) : String :=
  String.mk (strTrimL s.data)

/-- Embeds Python `c in s` for a single character. -/
def strHas (s : String) (c : Char) : Bool :=
  s.data.contains c

/-- Embeds Python `len(s)` (code points). -/
def strLen (s : String) : Nat :=
  s.data.length

/-- Embeds Python `s.split(sep)` for a one-character separator. -/
def splitChar (sep : Char) : List Char → List Char → List (List Char)
  | [], acc => [acc.reverse]
  | c :: rest, acc =>
    if c = sep then acc.reverse :: splitChar sep rest []
    else splitChar sep rest (c :: acc)

/-- Embeds Python `s.lower()` (ASCII). -/
def lowerStr (s : String) : String :=
  String.mk (s.data.map Char.toLower)

/-- Embeds Python `int(str)` on a string argument: strip whitespace, an
optional sign, then a nonempty run of ASCII digits; anything else raises
`ValueError` (here: `none`). -/
def pyStrToInt (str : String) : Option Int :=
  let core : List Char → Option Int := fun cs =>
    if cs = [] then none
    else if cs.all Char.isDigit then
      some (Int.ofNat (cs.foldl (fun acc c => acc * 10 + (c.toNat - 48)) 0))
    else none
  match strTrimL str.data with
  | '-' :: rest => (core rest).map (fun n => -n)
  | '+' :: rest => core rest
  | cs => core cs

/-- Embeds Python `int(x)` for an `IVal`: identity on integers, string
parsing on strings (failure = `ValueError`). -/
def pyInt (v : IVal) : Option Int :=
  match v with
  | .i n => some n
  | .s str => pyStrToInt str

/-- Embeds the Python comparison `v == 0` for an `IVal`: an `int` compares
numerically, a `str` is never equal to `0`. -/
def pyEqZero (v : IVal) : Bool :=
  match v with
  | .i n => n == 0
  | .s _ => false

/-- Embeds Python `==` between two `IVal`s: cross-type comparisons between
`int` and `str` are `False`. -/
def pyValEq (v w : IVal) : Bool :=
  match v, w with
  | .i n, .i m => n == m
  | .s a, .s b => a == b
  | _, _ => false

/-- The itemCount merge rule shared verbatim by `process_single_album`
(lines 253-269) and `process_bulk_albums` (lines 357-373) of
`unified_add_albums.py`: if the candidate supplies a value, both sides are
coerced with `int(...)` (`int(new_item_count)` first, then
`int(existing_item_count)`; if either raises, both fall back to the raw
values); the field is overwritten with the coerced new value only when the
existing side is `None` or `== 0` and the two sides compare unequal.
Returns the resulting field value and whether an update happened. -/
def mergeCount (existing cand : Option IVal) : Option IVal × Bool :=
  match cand with
  | none => (existing, false)
  | some c =>
    match pyInt c, existing with
    | some nc, none =>
      -- coercion succeeded, existing absent: `None != nc` always holds
      (some (.i nc), true)
    | some nc, some e =>
      match pyInt e with
      | some ec =>
        if ec = 0 then
          if ec = nc then (existing, false) else (some (.i nc), true)
        else (existing, false)
      | none =>
        -- `int(existing)` raised: raw comparison on both sides
        if pyEqZero e then
          if pyValEq e c then (existing, false) else (some c, true)
        else (existing, false)
    | none, none =>
      -- `int(new)` raised: raw comparison, existing absent
      (some c, true)
    | none, some e =>
      if pyEqZero e then
        if pyValEq e c then (existing, false) else (some c, true)
      else (existing, false)

/-- A stored album record (one JSON line of `photoAlbums.json`).  `none`
models an absent key; for string fields Python truthiness identifies the
empty string with absence at the use sites, which the embedding reproduces
with explicit emptiness tests. -/
structure Album where
  id : Option String := none
  url : String := ""
  title : Option String := none
  itemCount : Option IVal := none
  tags : List String := []
  dateRange : Option String := none
  startDate : Option String := none
  endDate : Option String := none
deriving DecidableEq, Repr

/-- Dict lookup `albums_dict[url]` / linear scan `album.get("url") == url`:
first record with the given url. -/
def findAlbum (store : List Album) (u : String) : Option Album :=
  store.find? (fun a => a.url == u)

/-- Dict assignment `albums_dict[url] = album`: replace the first record
with the given url in place, or append a new one (Python dicts keep the
original position of an existing key and append new keys). -/
def setAlbum (store : List Album) (u : String) (a : Album) : List Album :=
  match store with
  | [] => [a]
  | b :: rest => if b.url == u then a :: rest else b :: setAlbum rest u a

/-- Embeds `generate_unique_id` (`uuid.uuid4()`): a fresh-name counter. -/
def genId (n : Nat) : String × Nat :=
  ("uuid-" ++ toString n, n + 1)

theorem findAlbum_nil (u : String) : findAlbum [] u = none := rfl

theorem findAlbum_cons (b : Album) (rest : List Album) (u : String) :
    findAlbum (b :: rest) u = if b.url = u then some b else findAlbum rest u := by
  by_cases hb : b.url = u
  · simp [findAlbum, List.find?_cons_of_pos, hb]
  · simp [findAlbum, List.find?_cons_of_neg, hb]

theorem setAlbum_find_self (store : List Album) (u : String) (a : Album)
    (ha : a.url = u) : findAlbum (setAlbum store u a) u = some a := by
  induction store with
  | nil => simp [setAlbum, findAlbum_cons, ha]
  | cons b rest ih =>
    by_cases hb : b.url = u
    · simp [setAlbum, hb, findAlbum_cons, ha]
    · simp [setAlbum, hb, findAlbum_cons, ih]

theorem setAlbum_find_other (store : List Album) (u v : String) (a : Album)
    (hv : v ≠ u) (ha : a.url = u) :
    findAlbum (setAlbum store u a) v = findAlbum store v := by
  have hav : ¬ a.url = v := by rw [ha]; exact fun h => hv h.symm
  induction store with
  | nil => simp [setAlbum, findAlbum_cons, findAlbum_nil, hav]
  | cons b rest ih =>
    by_cases hb : b.url = u
    · have hbv : ¬ b.url = v := by rw [hb]; exact fun h => hv h.symm
      rw [setAlbum, if_pos (beq_iff_eq.mpr hb), findAlbum_cons, if_neg hav,
        findAlbum_cons, if_neg hbv]
    · rw [setAlbum, if_neg (by simpa using hb), findAlbum_cons, findAlbum_cons]
      by_cases hbv : b.url = v
      · rw [if_pos hbv, if_pos hbv]
      · rw [if_neg hbv, if_neg hbv, ih]

theorem findAlbum_url {store : List Album} {u : String} {a : Album}
    (h : findAlbum store u = some a) : a.url = u := by
  have := List.find?_some h
  exact beq_iff_eq.mp this

/-! ### Date machinery (`DateNormalizer`)

Embeds the date handling of `unified_add_albums.py` and `search_albums.py`.
Python's `datetime.strptime` with format `"%b %d, %Y"` is embedded as
`strptimeBdY`, and `"%Y-%m-%d"` (used by `edit_date.validate_date`) as
`parseYmd`, following CPython's `_strptime` regular expressions
(`%Y` = exactly four digits, `%m` = `1[0-2]|0[1-9]|[1-9]`,
`%d` = `3[01]|[12]\x5cd|0[1-9]|[1-9]| [1-9]`, whitespace in the format =
one or more whitespace characters) followed by the calendar validity check
performed by the `datetime` constructor. -/

/-- Fold a list of ASCII digit characters into a natural number. -/
def digitsToNat (cs : List Char) : Nat :=
  cs.foldl (fun acc c => acc * 10 + (c.toNat - 48)) 0

/-- Drop any further whitespace. -/
def skipWsAll : List Char → List Char
  | [] => []
  | c :: rest => if isWs c then skipWsAll rest else c :: rest

/-- Require at least one whitespace character, then drop the whole run
(the `\s+` that CPython substitutes for whitespace in a strptime format). -/
def skipWs1 : List Char → Option (List Char)
  | [] => none
  | c :: rest => if isWs c then some (skipWsAll rest) else none

/-- Case-insensitive English month abbreviation to month number
(CPython matches `%b` against the locale's abbreviated month names with
`re.IGNORECASE`). -/
def monthAbbr (s : String) : Option Nat :=
  match lowerStr s with
  | "jan" => some 1 | "feb" => some 2 | "mar" => some 3 | "apr" => some 4
  | "may" => some 5 | "jun" => some 6 | "jul" => some 7 | "aug" => some 8
  | "sep" => some 9 | "oct" => some 10 | "nov" => some 11 | "dec" => some 12
  | _ => none

/-- Gregorian leap-year rule, as in Python's `calendar`/`datetime`. -/
def isLeap (y : Nat) : Bool :=
  y % 4 == 0 && (y % 100 != 0 || y % 400 == 0)

/-- Days in a month, as enforced by the `datetime` constructor. -/
def daysInMonth (y m : Nat) : Nat :=
  match m with
  | 2 => if isLeap y then 29 else 28
  | 4 => 30 | 6 => 30 | 9 => 30 | 11 => 30
  | _ => 31

/-- Embeds `datetime.strptime(s, "%b %d, %Y")` as a full match over a
character list, returning `(year, month, day)`; `none` models the
`ValueError` that the callers catch.  The day token is one or two digits
(two-digit range 01-31, one-digit range 1-9, exactly the `%d` character
class once the preceding `\s+` has absorbed any space padding); the year is
exactly four digits and the result must be a real calendar date with
`year >= 1` (`datetime.MINYEAR`). -/
def strptimeBdY (cs : List Char) : Option (Nat × Nat × Nat) :=
  match cs with
  | m1 :: m2 :: m3 :: rest =>
    match monthAbbr (String.mk [m1, m2, m3]) with
    | none => none
    | some m =>
      match skipWs1 rest with
      | none => none
      | some r1 =>
        let finish : Nat → List Char → Option (Nat × Nat × Nat) := fun d r2 =>
          match r2 with
          | ',' :: r3 =>
            match skipWs1 r3 with
            | none => none
            | some r4 =>
              match r4 with
              | [y1, y2, y3, y4] =>
                if y1.isDigit && y2.isDigit && y3.isDigit && y4.isDigit then
                  let y := digitsToNat [y1, y2, y3, y4]
                  if 1 ≤ y && 1 ≤ d && d ≤ daysInMonth y m then some (y, m, d)
                  else none
                else none
              | _ => none
          | _ => none
        match r1 with
        | d1 :: d2 :: r2 =>
          if d1.isDigit && d2.isDigit then
            let d := digitsToNat [d1, d2]
            -- a two-digit token outside 01-31 cannot fall back to a
            -- one-digit day: the next character would be a digit, not ','
            if 1 ≤ d && d ≤ 31 then finish d r2 else none
          else if d1.isDigit && '1' ≤ d1 then finish (digitsToNat [d1]) (d2 :: r2)
          else none
        | _ => none
  | _ => none

/-- The regex `^\x5cd{4}-\x5cd{2}-\x5cd{2}$` of
`convert_date_to_storage_format` (shape only, no range checks). -/
def isCanonicalDate (t : String) : Bool :=
  match t.data with
  | [a, b, c, d, '-', e, f, '-', g, h] =>
    a.isDigit && b.isDigit && c.isDigit && d.isDigit &&
      e.isDigit && f.isDigit && g.isDigit && h.isDigit
  | _ => false

/-- Decimal digit character of `n % 10`. -/
def digCh (n : Nat) : Char :=
  match n % 10 with
  | 0 => '0' | 1 => '1' | 2 => '2' | 3 => '3' | 4 => '4'
  | 5 => '5' | 6 => '6' | 7 => '7' | 8 => '8' | _ => '9'

/-- Embeds `dt.strftime("%Y-%m-%d")` for the dates produced by
`strptimeBdY` (year below 10000), zero-padded `YYYY-MM-DD`. -/
def fmtDate (y m d : Nat) : String :=
  String.mk [digCh (y / 1000), digCh (y / 100), digCh (y / 10), digCh y, '-',
    digCh (m / 10), digCh m, '-', digCh (d / 10), digCh d]

/-- Embeds `convert_date_to_storage_format` of `unified_add_albums.py`
(lines 40-66); `cy` is `datetime.now().year`.  Note the source returns the
ORIGINAL string when parsing fails ("If parsing fails, return original"),
not a null value. -/
def convert_date_to_storage_format (cy : Nat) (s : String) : String :=
  if s.data.isEmpty then s
  else if isCanonicalDate (strTrim s) then strTrim s
  else if strHas s ',' then
    match strptimeBdY (strTrimL s.data) with
    | some (y, m, d) => fmtDate y m d
    | none => s
  else
    match strptimeBdY (strTrimL s.data ++ (", " ++ toString cy).data) with
    | some (y, m, d) => fmtDate y m d
    | none => s

/-- Embeds `normalize_date_range` of `unified_add_albums.py` (lines 68-83). -/
def normalize_date_range (cy : Nat) (sd ed : Option String) : Option String :=
  match sd with
  | none => none
  | some st =>
    if st.data.isEmpty then none
    else
      let sn := convert_date_to_storage_format cy st
      match ed with
      | some en =>
        if en.data.isEmpty then some sn
        else some (sn ++ "--" ++ convert_date_to_storage_format cy en)
      | none => some sn

/-- Embeds `parse_date_for_sorting` of `search_albums.py` (lines 108-138):
`(year, month, day)` triple, `(0, 0, 0)` for missing/unparseable dates. -/
def parse_date_for_sorting (cy : Nat) (s : String) : Int × Int × Int :=
  if s.data.isEmpty then (0, 0, 0)
  else
    let tryNew : Option (Int × Int × Int) :=
      if strHas s '-' && decide (strLen s ≥ 8) then
        match splitChar '-' s.data [] with
        | [p1, p2, p3] =>
          if !p1.isEmpty && p1.all Char.isDigit &&
              !p2.isEmpty && p2.all Char.isDigit &&
              !p3.isEmpty && p3.all Char.isDigit then
            some (Int.ofNat (digitsToNat p1),
              Int.ofNat (digitsToNat p2), Int.ofNat (digitsToNat p3))
          else none
        | _ => none
      else none
    match tryNew with
    | some t => t
    | none =>
      if strHas s ',' then
        match strptimeBdY (strTrimL s.data) with
        | some (y, m, d) => (Int.ofNat y, Int.ofNat m, Int.ofNat d)
        | none => (0, 0, 0)
      else
        match strptimeBdY (strTrimL s.data ++ (", " ++ toString cy).data) with
        | some (y, m, d) => (Int.ofNat y, Int.ofNat m, Int.ofNat d)
        | none => (0, 0, 0)

/-- Embeds `extract_year_from_date` of `search_albums.py` (lines 140-164). -/
def extract_year_from_date (s : String) : Option Int :=
  if s.data.isEmpty then none
  else
    let tryNew : Option Int :=
      if strHas s '-' && decide (strLen s ≥ 4) then
        let ys := (splitChar '-' s.data []).headD []
        if !ys.isEmpty && ys.all Char.isDigit && ys.length = 4 then
          some (Int.ofNat (digitsToNat ys))
        else none
      else none
    match tryNew with
    | some y => some y
    | none =>
      if strHas s ',' then
        match strptimeBdY (strTrimL s.data) with
        | some (y, _, _) => some (Int.ofNat y)
        | none => none
      else none

/-- Embeds `matches_year_filter` of `search_albums.py` (lines 250-288). -/
def matches_year_filter (album : Album) (yf : Option (Int × Int)) : Bool :=
  match yf with
  | none => true
  | some (searchStart, searchEnd) =>
    let sd := album.startDate.getD ""
    let ed := album.endDate.getD ""
    match extract_year_from_date sd with
    | none => false
    | some albumStart =>
      if !ed.data.isEmpty then
        let albumEnd := (extract_year_from_date ed).getD albumStart
        decide (albumStart ≤ searchEnd ∧ albumEnd ≥ searchStart)
      else
        decide (searchStart ≤ albumStart ∧ albumStart ≤ searchEnd)

/-- The sort key of `search_albums.main` (lines 394-400):
`(1 if no date else 0, -year, -month, -day)`, compared ascending. -/
def sortKey (cy : Nat) (a : Album) : Int × Int × Int × Int :=
  let t := parse_date_for_sorting cy (a.startDate.getD "")
  (if t = (0, 0, 0) then 1 else 0, -t.1, -t.2.1, -t.2.2)

/-- Lexicographic order on sort keys (Python tuple comparison). -/
def keyLe (k1 k2 : Int × Int × Int × Int) : Bool :=
  decide (k1.1 < k2.1 ∨ (k1.1 = k2.1 ∧ (k1.2.1 < k2.2.1 ∨ (k1.2.1 = k2.2.1 ∧
    (k1.2.2.1 < k2.2.2.1 ∨ (k1.2.2.1 = k2.2.2.1 ∧ k1.2.2.2 ≤ k2.2.2.2))))))

/-- The result ordering of `search_albums.main`: Python's `list.sort` is the
unique stable sort ascending by key, embedded as `mergeSort` (stable, and
sorted by `sorted_mergeSort`). -/
def sortAlbums (cy : Nat) (l : List Album) : List Album :=
  l.mergeSort (fun a b => keyLe (sortKey cy a) (sortKey cy b))

example : convert_date_to_storage_format 2025 "Nov 27, 2014" = "2014-11-27" := by decide
example : convert_date_to_storage_format 2025 "Nov 27" = "2025-11-27" := by decide
example : convert_date_to_storage_format 2025 " 2024-11-27 " = "2024-11-27" := by decide
example : convert_date_to_storage_format 2025 "garbage" = "garbage" := by decide
example : convert_date_to_storage_format 2025 "Feb 30, 2014" = "Feb 30, 2014" := by decide
example : convert_date_to_storage_format 2024 "Feb 29, 2024" = "2024-02-29" := by decide
example : parse_date_for_sorting 2025 "2024-10-30" = (2024, 10, 30) := by decide
example : parse_date_for_sorting 2025 "Oct 30, 2024" = (2024, 10, 30) := by decide
example : parse_date_for_sorting 2025 "nope" = (0, 0, 0) := by decide
example : extract_year_from_date "2024-10-30" = some 2024 := by decide
example : extract_year_from_date "Oct 30, 2024" = some 2024 := by decide
example : extract_year_from_date "Oct 30" = none := by decide

/-! ### ReconciliationEngine (`unified_add_albums.py`) -/

/-- Python truthiness of an optional string field (absent key, `None`, and
the empty string are all falsy). -/
def optTruthy (o : Option String) : Bool :=
  match o with
  | none => false
  | some s => !s.data.isEmpty

/-- A single-import candidate (`type: "single"` payload): `url`, `title`,
`itemCount?`, `startDate?`, `endDate?`. -/
structure SingleCand where
  url : String := ""
  title : Option String := none
  itemCount : Option IVal := none
  startDate : Option String := none
  endDate : Option String := none
deriving DecidableEq, Repr

/-- A batch-import candidate (`type: "bulk"` element): `url`, `title`,
`itemCount?`. -/
structure BulkCand where
  url : String := ""
  title : Option String := none
  itemCount : Option IVal := none
deriving DecidableEq, Repr

/-- The shared id backfill of both ingest paths:
`album_id = existing_album.get('id'); if not album_id: generate and store`. -/
def idBackfill (a : Album) (n : Nat) : String × Album × Nat :=
  match a.id with
  | some i =>
    if i.data.isEmpty then
      ((genId n).1, { a with id := some (genId n).1 }, (genId n).2)
    else (i, a, n)
  | none =>
    ((genId n).1, { a with id := some (genId n).1 }, (genId n).2)

/-- The record produced by applying the itemCount merge rule to an
existing record after the id backfill (shared by both ingest paths). -/
def countMerged (a : Album) (n : Nat) (cI : Option IVal) : Album :=
  { (idBackfill a n).2.1 with
      itemCount := (mergeCount (idBackfill a n).2.1.itemCount cI).1 }

/-- The date-field update block of `process_single_album`
(`unified_add_albums.py` lines 271-303), applied to an existing record:
each of `dateRange`, `startDate`, `endDate` is overwritten when the
candidate supplies a (truthy) normalized value differing from the
re-normalized existing value.  Returns the updated record and whether any
of the three fields changed. -/
def updRangeStep (cy : Nat) (dateRange : Option String) (ex : Album) :
    Album × Bool :=
  if optTruthy dateRange then
    let dr := dateRange.getD ""
    let normalizedExistingRange : Option String :=
      if optTruthy ex.startDate then
        let nes := convert_date_to_storage_format cy (ex.startDate.getD "")
        if optTruthy ex.endDate then
          some (nes ++ "--" ++ convert_date_to_storage_format cy (ex.endDate.getD ""))
        else some nes
      else none
    if normalizedExistingRange ≠ some dr then
      ({ ex with dateRange := some dr }, true)
    else (ex, false)
  else (ex, false)

def updStartStep (cy : Nat) (startDate : Option String) (ex : Album) :
    Album × Bool :=
  if optTruthy startDate then
    let sd := startDate.getD ""
    let nes : Option String :=
      if optTruthy ex.startDate then
        some (convert_date_to_storage_format cy (ex.startDate.getD ""))
      else none
    if nes ≠ some sd then ({ ex with startDate := some sd }, true)
    else (ex, false)
  else (ex, false)

def updEndStep (cy : Nat) (endDate : Option String) (ex : Album) :
    Album × Bool :=
  if optTruthy endDate then
    let ed := endDate.getD ""
    let nee : Option String :=
      if optTruthy ex.endDate then
        some (convert_date_to_storage_format cy (ex.endDate.getD ""))
      else none
    if nee ≠ some ed then ({ ex with endDate := some ed }, true)
    else (ex, false)
  else (ex, false)

def updDates (cy : Nat) (dateRange startDate endDate : Option String)
    (ex : Album) : Album × Bool :=
  let r3 := updRangeStep cy dateRange ex
  let r4 := updStartStep cy startDate r3.1
  let r5 := updEndStep cy endDate r4.1
  (r5.1, r3.2 || r4.2 || r5.2)

/-- Embeds `process_single_album` of `unified_add_albums.py`
(lines 225-332).  Returns `(unchanged_id?, updated_id?, added_id?)`, the
new store, and the fresh-name counter. -/
def process_single_album (cy : Nat) (cand : SingleCand) (store : List Album)
    (n : Nat) : (Option String × Option String × Option String) × List Album × Nat :=
  let u := strTrim cand.url
  if u.data.isEmpty then ((none, none, none), store, n)
  else
    let title := cand.title.getD "Untitled Album"
    let startDate : Option String :=
      if optTruthy cand.startDate then
        some (convert_date_to_storage_format cy (cand.startDate.getD ""))
      else none
    let endDate : Option String :=
      if optTruthy cand.endDate then
        some (convert_date_to_storage_format cy (cand.endDate.getD ""))
      else none
    let dateRange : Option String :=
      if optTruthy startDate then normalize_date_range cy startDate endDate
      else none
    match findAlbum store u with
    | some existing =>
      let ib := idBackfill existing n
      let mc := mergeCount ib.2.1.itemCount cand.itemCount
      let r := updDates cy dateRange startDate endDate (countMerged existing n cand.itemCount)
      let store' := setAlbum store u r.1
      if mc.2 || r.2 then ((none, some ib.1, none), store', ib.2.2)
      else ((some ib.1, none, none), store', ib.2.2)
    | none =>
      let g := genId n
      let newAlbum : Album :=
        { id := some g.1, url := u, title := some title, tags := [],
          itemCount := cand.itemCount,
          dateRange := if optTruthy dateRange then dateRange else none,
          startDate := if optTruthy startDate then startDate else none,
          endDate := if optTruthy endDate then endDate else none }
      ((none, none, some g.1), store ++ [newAlbum], g.2)

/-- Outcome of one batch-ingest candidate. -/
inductive BulkOutcome where
  | unchanged : String → BulkOutcome
  | updated : String → BulkOutcome
  | added : String → BulkOutcome
  | skipped : BulkOutcome
deriving DecidableEq, Repr

/-- One iteration of the loop of `process_bulk_albums`
(`unified_add_albums.py` lines 340-392). -/
def processBulkOne (store : List Album) (n : Nat) (cand : BulkCand) :
    (List Album × Nat) × BulkOutcome :=
  let u := strTrim cand.url
  if u.data.isEmpty then ((store, n), .skipped)
  else
    match findAlbum store u with
    | some existing =>
      let ib := idBackfill existing n
      let mc := mergeCount ib.2.1.itemCount cand.itemCount
      ((setAlbum store u (countMerged existing n cand.itemCount), ib.2.2),
        if mc.2 then .updated ib.1 else .unchanged ib.1)
    | none =>
      let g := genId n
      let newAlbum : Album :=
        { id := some g.1, url := u,
          title := some (cand.title.getD "Untitled Album"), tags := [],
          itemCount := cand.itemCount }
      ((store ++ [newAlbum], g.2), .added g.1)

/-- Embeds `process_bulk_albums` of `unified_add_albums.py`
(lines 334-394): `(unchanged_ids, updated_ids, added_ids)`, the new store,
and the fresh-name counter. -/
def process_bulk_albums (cands : List BulkCand) (store : List Album) (n : Nat) :
    (List String × List String × List String) × List Album × Nat :=
  match cands with
  | [] => (([], [], []), store, n)
  | c :: cs =>
    let r1 := processBulkOne store n c
    let r2 := process_bulk_albums cs r1.1.1 r1.1.2
    match r1.2 with
    | .unchanged i => ((i :: r2.1.1, r2.1.2.1, r2.1.2.2), r2.2)
    | .updated i => ((r2.1.1, i :: r2.1.2.1, r2.1.2.2), r2.2)
    | .added i => ((r2.1.1, r2.1.2.1, i :: r2.1.2.2), r2.2)
    | .skipped => r2

/-- The persistence guard of `unified_add_albums.main` (lines 458-467):
the database file is rewritten exactly when `updated_ids or added_ids`. -/
def ingestBulkWrites (cands : List BulkCand) (store : List Album) (n : Nat) : Bool :=
  let r := process_bulk_albums cands store n
  !r.1.2.1.isEmpty || !r.1.2.2.isEmpty

/-- The store contents persisted on disk after a batch-ingest invocation:
the merged store when the guard wrote, the untouched prior contents
otherwise. -/
def ingestBulkPersisted (cands : List BulkCand) (store : List Album) (n : Nat) :
    List Album :=
  let r := process_bulk_albums cands store n
  if !r.1.2.1.isEmpty || !r.1.2.2.isEmpty then r.2.1 else store
/-! ### Lemmas about the itemCount merge rule -/

theorem pyInt_i (n : Int) : pyInt (IVal.i n) = some n := rfl

theorem pyEqZero_of_pyInt_none {v : IVal} (h : pyInt v = none) :
    pyEqZero v = false := by
  cases v with
  | i n => simp [pyInt] at h
  | s str => rfl

theorem mergeCount_none (e : Option IVal) : mergeCount e none = (e, false) := rfl

/-- In every non-updating branch the field value is returned unchanged. -/
theorem mergeCount_fst_of_not_updated {e c : Option IVal}
    (h : (mergeCount e c).2 = false) : (mergeCount e c).1 = e := by
  cases c with
  | none => rfl
  | some cv =>
    cases hc : pyInt cv with
    | some nc =>
      cases e with
      | none => simp [mergeCount, hc] at h
      | some ev =>
        cases he : pyInt ev with
        | some ec =>
          by_cases hz : ec = 0
          · by_cases hq : ec = nc
            · simp [mergeCount, hc, he, hz, hq, show (0 : Int) = nc by omega]
            · simp [mergeCount, hc, he, hz, hq,
                show ¬ (0 : Int) = nc by omega] at h
          · simp [mergeCount, hc, he, hz]
        | none =>
          by_cases hz : pyEqZero ev = true
          · by_cases hq : pyValEq ev cv = true
            · simp [mergeCount, hc, he, hz, hq]
            · simp [mergeCount, hc, he, hz, hq] at h
          · simp only [Bool.not_eq_true] at hz
            simp [mergeCount, hc, he, hz]
    | none =>
      cases e with
      | none => simp [mergeCount, hc] at h
      | some ev =>
        by_cases hz : pyEqZero ev = true
        · by_cases hq : pyValEq ev cv = true
          · simp [mergeCount, hc, hz, hq]
          · simp [mergeCount, hc, hz, hq] at h
        · simp only [Bool.not_eq_true] at hz
          simp [mergeCount, hc, hz]

/-- The monotonic-fill guarantee at the merge-rule level: an existing value
that does not coerce to the integer 0 is never overwritten (a non-numeric
string falls back to the raw comparison, where it is never `== 0`). -/
theorem mergeCount_nonzero {v : IVal} (c : Option IVal)
    (h : pyInt v ≠ some 0) : mergeCount (some v) c = (some v, false) := by
  cases c with
  | none => rfl
  | some cv =>
    have hz : pyEqZero v = false := by
      cases v with
      | i n =>
        have : ¬ n = 0 := by simpa [pyInt] using h
        simp [pyEqZero, this]
      | s str => rfl
    cases hc : pyInt cv with
    | some nc =>
      cases he : pyInt v with
      | some ec =>
        have hec : ¬ ec = 0 := by rw [he] at h; simpa using h
        simp [mergeCount, hc, he, hec]
      | none => simp [mergeCount, hc, he, hz]
    | none => simp [mergeCount, hc, hz]

/-- A merged-in candidate value cannot be merged in again: re-running the
merge of the same candidate against its own result is a no-op. -/
theorem mergeCount_self_stable (e c : Option IVal) :
    (mergeCount (mergeCount e c).1 c).2 = false := by
  cases c with
  | none => rfl
  | some cv =>
    cases hc : pyInt cv with
    | some nc =>
      cases e with
      | none =>
        have h1 : mergeCount none (some cv) = (some (.i nc), true) := by
          simp [mergeCount, hc]
        rw [h1]
        by_cases h0 : nc = 0 <;> simp [mergeCount, hc, pyInt_i, h0]
      | some ev =>
        cases he : pyInt ev with
        | some ec =>
          by_cases hz : ec = 0
          · by_cases hq : ec = nc
            · have h1 : mergeCount (some ev) (some cv) = (some ev, false) := by
                simp [mergeCount, hc, he, hz, hq, show (0 : Int) = nc by omega]
              rw [h1, h1]
            · have h1 : mergeCount (some ev) (some cv) = (some (.i nc), true) := by
                simp [mergeCount, hc, he, hz, hq, show ¬ (0 : Int) = nc by omega]
              rw [h1]
              have hnc : ¬ nc = 0 := by
                intro h; exact hq (by omega)
              simp [mergeCount, hc, pyInt_i, hnc]
          · have h1 : mergeCount (some ev) (some cv) = (some ev, false) := by
              simp [mergeCount, hc, he, hz]
            rw [h1, h1]
        | none =>
          have hz : pyEqZero ev = false := pyEqZero_of_pyInt_none he
          have h1 : mergeCount (some ev) (some cv) = (some ev, false) := by
            simp [mergeCount, hc, he, hz]
          rw [h1, h1]
    | none =>
      have hcz : pyEqZero cv = false := pyEqZero_of_pyInt_none hc
      cases e with
      | none =>
        have h1 : mergeCount none (some cv) = (some cv, true) := by
          simp [mergeCount, hc]
        rw [h1]
        simp [mergeCount, hc, hcz]
      | some ev =>
        by_cases hz : pyEqZero ev = true
        · by_cases hq : pyValEq ev cv = true
          · have h1 : mergeCount (some ev) (some cv) = (some ev, false) := by
              simp [mergeCount, hc, hz, hq]
            rw [h1, h1]
          · have h1 : mergeCount (some ev) (some cv) = (some cv, true) := by
              simp [mergeCount, hc, hz, hq]
            rw [h1]
            simp [mergeCount, hc, hcz]
        · simp only [Bool.not_eq_true] at hz
          have h1 : mergeCount (some ev) (some cv) = (some ev, false) := by
            simp [mergeCount, hc, hz]
          rw [h1, h1]

/-- A record value that is stable for a candidate stays stable for that
candidate after the record is merged with ANY other candidate. -/
theorem mergeCount_stable_preserved {e c : Option IVal} (c' : Option IVal)
    (h : (mergeCount e c).2 = false) :
    (mergeCount (mergeCount e c').1 c).2 = false := by
  by_cases hup : (mergeCount e c').2 = true
  · cases c' with
    | none => simp [mergeCount] at hup
    | some cv =>
      have hcnone : e = none → c = none := by
        intro he
        subst he
        cases c with
        | none => rfl
        | some dv =>
          exfalso
          cases hd : pyInt dv with
          | some md => simp [mergeCount, hd] at h
          | none => simp [mergeCount, hd] at h
      cases hc : pyInt cv with
      | some nc =>
        cases e with
        | none =>
          have h1 : mergeCount none (some cv) = (some (.i nc), true) := by
            simp [mergeCount, hc]
          rw [h1, hcnone rfl, mergeCount_none]
        | some ev =>
          cases he : pyInt ev with
          | some ec =>
            by_cases hz : ec = 0
            · by_cases hq : ec = nc
              · simp [mergeCount, hc, he, hz, hq,
                  show (0 : Int) = nc by omega] at hup
              · have h1 : mergeCount (some ev) (some cv) = (some (.i nc), true) := by
                  simp [mergeCount, hc, he, hz, hq, show ¬ (0 : Int) = nc by omega]
                rw [h1]
                have hnc : pyInt (IVal.i nc) ≠ some 0 := by
                  rw [pyInt_i]
                  intro hh
                  have h0 : nc = 0 := by simpa using hh
                  exact hq (by omega)
                rw [mergeCount_nonzero c hnc]
            · simp [mergeCount, hc, he, hz] at hup
          | none =>
            have hz : pyEqZero ev = false := pyEqZero_of_pyInt_none he
            simp [mergeCount, hc, he, hz] at hup
      | none =>
        have hcz : pyEqZero cv = false := pyEqZero_of_pyInt_none hc
        have hstable : (mergeCount (some cv) c).2 = false := by
          have : pyInt cv ≠ some 0 := by rw [hc]; exact fun hh => by cases hh
          rw [mergeCount_nonzero c this]
        cases e with
        | none =>
          have h1 : mergeCount none (some cv) = (some cv, true) := by
            simp [mergeCount, hc]
          rw [h1]
          exact hstable
        | some ev =>
          by_cases hz : pyEqZero ev = true
          · by_cases hq : pyValEq ev cv = true
            · simp [mergeCount, hc, hz, hq] at hup
            · have h1 : mergeCount (some ev) (some cv) = (some cv, true) := by
                simp [mergeCount, hc, hz, hq]
              rw [h1]
              exact hstable
          · simp only [Bool.not_eq_true] at hz
            simp [mergeCount, hc, hz] at hup
  · simp only [Bool.not_eq_true] at hup
    rw [mergeCount_fst_of_not_updated hup]
    exact h

/-- A value is always stable for the candidate it was created from
(the create path of ingest stores the raw candidate value). -/
theorem mergeCount_stable_refl (c : Option IVal) : (mergeCount c c).2 = false := by
  cases c with
  | none => rfl
  | some cv =>
    cases hc : pyInt cv with
    | some nc =>
      by_cases h0 : nc = 0 <;> simp [mergeCount, hc, h0]
    | none =>
      simp [mergeCount, hc, pyEqZero_of_pyInt_none hc]

/-! ### Claim-level description of the overwrite condition -/

/-- The comparison values actually used by the merge rule: both sides
coerced to integers, falling back to the raw values when either coercion
fails (the claim's parenthetical). -/
def coercedPair (e : Option IVal) (c : IVal) : Option IVal × IVal :=
  match pyInt c with
  | some nc =>
    match e with
    | none => (none, .i nc)
    | some ev =>
      match pyInt ev with
      | some ec => (some (.i ec), .i nc)
      | none => (e, c)
  | none => (e, c)

/-- The existing itemCount is absent or zero, in the coerced-with-fallback
sense. -/
def existingAbsentOrZero (e : Option IVal) (c : IVal) : Bool :=
  match (coercedPair e c).1 with
  | none => true
  | some v => pyEqZero v

/-- The candidate value differs from the existing one, in the
coerced-with-fallback sense (an absent existing value always differs). -/
def candDiffers (e : Option IVal) (c : IVal) : Bool :=
  match (coercedPair e c).1 with
  | none => true
  | some v => !pyValEq v (coercedPair e c).2

/-- The merge rule updates exactly under the claim's condition. -/
theorem mergeCount_updated_iff (e : Option IVal) (c : IVal) :
    (mergeCount e (some c)).2 = true ↔
      existingAbsentOrZero e c = true ∧ candDiffers e c = true := by
  cases hc : pyInt c with
  | some nc =>
    cases e with
    | none =>
      simp [mergeCount, hc, existingAbsentOrZero, candDiffers, coercedPair]
    | some ev =>
      cases he : pyInt ev with
      | some ec =>
        by_cases hz : ec = 0
        · by_cases hq : ec = nc
          · simp [mergeCount, hc, he, hz, hq, existingAbsentOrZero,
              candDiffers, coercedPair, pyEqZero, pyValEq,
              show (0 : Int) = nc by omega]
          · simp [mergeCount, hc, he, hz, hq, existingAbsentOrZero,
              candDiffers, coercedPair, pyEqZero, pyValEq,
              show ¬ (0 : Int) = nc by omega]
        · simp [mergeCount, hc, he, hz, existingAbsentOrZero,
            candDiffers, coercedPair, pyEqZero]
      | none =>
        have hz : pyEqZero ev = false := pyEqZero_of_pyInt_none he
        simp [mergeCount, hc, he, hz, existingAbsentOrZero, candDiffers,
          coercedPair]
  | none =>
    cases e with
    | none =>
      simp [mergeCount, hc, existingAbsentOrZero, candDiffers, coercedPair]
    | some ev =>
      by_cases hz : pyEqZero ev = true
      · by_cases hq : pyValEq ev c = true
        · simp [mergeCount, hc, hz, hq, existingAbsentOrZero, candDiffers,
            coercedPair]
        · simp [mergeCount, hc, hz, hq, existingAbsentOrZero, candDiffers,
            coercedPair]
      · simp only [Bool.not_eq_true] at hz
        simp [mergeCount, hc, hz, existingAbsentOrZero, candDiffers,
          coercedPair]

/-- When the merge rule updates, the written value is the (coerced)
candidate value. -/
theorem mergeCount_updated_val {e : Option IVal} {c : IVal}
    (h : (mergeCount e (some c)).2 = true) :
    (mergeCount e (some c)).1 = some (coercedPair e c).2 := by
  cases hc : pyInt c with
  | some nc =>
    cases e with
    | none => simp [mergeCount, hc, coercedPair]
    | some ev =>
      cases he : pyInt ev with
      | some ec =>
        by_cases hz : ec = 0
        · by_cases hq : ec = nc
          · simp [mergeCount, hc, he, hz, hq,
              show (0 : Int) = nc by omega] at h
          · simp [mergeCount, hc, he, hz, hq, coercedPair,
              show ¬ (0 : Int) = nc by omega]
        · simp [mergeCount, hc, he, hz] at h
      | none =>
        have hz : pyEqZero ev = false := pyEqZero_of_pyInt_none he
        simp [mergeCount, hc, he, hz] at h
  | none =>
    cases e with
    | none => simp [mergeCount, hc, coercedPair]
    | some ev =>
      by_cases hz : pyEqZero ev = true
      · by_cases hq : pyValEq ev c = true
        · simp [mergeCount, hc, hz, hq] at h
        · simp [mergeCount, hc, hz, hq, coercedPair]
      · simp only [Bool.not_eq_true] at hz
        simp [mergeCount, hc, hz] at h

/-! ### Frame lemmas for the ingest update path -/

theorem idBackfill_frame (a : Album) (n : Nat) :
    (idBackfill a n).2.1.url = a.url ∧ (idBackfill a n).2.1.title = a.title ∧
    (idBackfill a n).2.1.itemCount = a.itemCount ∧
    (idBackfill a n).2.1.tags = a.tags := by
  unfold idBackfill
  cases ha : a.id <;> simp only [ha] <;> try split
  all_goals simp

theorem updRangeStep_frame (cy : Nat) (dr : Option String) (ex : Album) :
    (updRangeStep cy dr ex).1.url = ex.url ∧
    (updRangeStep cy dr ex).1.title = ex.title ∧
    (updRangeStep cy dr ex).1.itemCount = ex.itemCount ∧
    (updRangeStep cy dr ex).1.tags = ex.tags := by
  unfold updRangeStep
  split_ifs <;> simp
  all_goals (split <;> simp)

theorem updStartStep_frame (cy : Nat) (sd : Option String) (ex : Album) :
    (updStartStep cy sd ex).1.url = ex.url ∧
    (updStartStep cy sd ex).1.title = ex.title ∧
    (updStartStep cy sd ex).1.itemCount = ex.itemCount ∧
    (updStartStep cy sd ex).1.tags = ex.tags := by
  unfold updStartStep
  split_ifs <;> simp
  all_goals (split <;> simp)

theorem updEndStep_frame (cy : Nat) (ed : Option String) (ex : Album) :
    (updEndStep cy ed ex).1.url = ex.url ∧
    (updEndStep cy ed ex).1.title = ex.title ∧
    (updEndStep cy ed ex).1.itemCount = ex.itemCount ∧
    (updEndStep cy ed ex).1.tags = ex.tags := by
  unfold updEndStep
  split_ifs <;> simp
  all_goals (split <;> simp)

theorem updDates_frame (cy : Nat) (dr sd ed : Option String) (ex : Album) :
    (updDates cy dr sd ed ex).1.url = ex.url ∧
    (updDates cy dr sd ed ex).1.title = ex.title ∧
    (updDates cy dr sd ed ex).1.itemCount = ex.itemCount ∧
    (updDates cy dr sd ed ex).1.tags = ex.tags := by
  obtain ⟨u3, t3, i3, g3⟩ := updRangeStep_frame cy dr ex
  obtain ⟨u4, t4, i4, g4⟩ := updStartStep_frame cy sd (updRangeStep cy dr ex).1
  obtain ⟨u5, t5, i5, g5⟩ :=
    updEndStep_frame cy ed (updStartStep cy sd (updRangeStep cy dr ex).1).1
  unfold updDates
  exact ⟨by rw [u5, u4, u3], by rw [t5, t4, t3], by rw [i5, i4, i3],
    by rw [g5, g4, g3]⟩

theorem ite_triple_store {α β γ : Type} (c : Prop) [Decidable c]
    (x y : α) (s : β) (m : γ) :
    (if c then (x, s, m) else (y, s, m)).2.1 = s := by
  split <;> rfl

theorem countMerged_fields (a : Album) (n : Nat) (cI : Option IVal) :
    (countMerged a n cI).itemCount = (mergeCount a.itemCount cI).1 ∧
    (countMerged a n cI).title = a.title ∧
    (countMerged a n cI).url = a.url := by
  obtain ⟨ibu, ibt, ibi, ibg⟩ := idBackfill_frame a n
  refine ⟨?_, ?_, ?_⟩
  · simp [countMerged, ibi]
  · simp [countMerged, ibt]
  · simp [countMerged, ibu]

theorem single_found_goal (cy : Nat) (dr sd ed : Option String)
    (cI : Option IVal) (store : List Album) (u : String) (n : Nat) (a : Album)
    (hf : findAlbum store u = some a) :
    ∃ a', findAlbum (setAlbum store u (updDates cy dr sd ed (countMerged a n cI)).1) u
        = some a' ∧
      a'.title = a.title ∧
      (a'.itemCount = a.itemCount ∨
        a'.itemCount = (mergeCount a.itemCount cI).1) := by
  obtain ⟨hic, hti, hur⟩ := countMerged_fields a n cI
  obtain ⟨uu, ut, ui, ug⟩ := updDates_frame cy dr sd ed (countMerged a n cI)
  refine ⟨_, setAlbum_find_self store u _ ?_, ?_, Or.inr ?_⟩
  · rw [uu, hur]
    exact findAlbum_url hf
  · rw [ut, hti]
  · rw [ui, hic]

/-- The found-url case of `process_single_album`: the record stays under
its url, its title is untouched, and its itemCount is either untouched or
the result of the merge rule. -/
theorem process_single_found (cy : Nat) (sc : SingleCand) (store : List Album)
    (n : Nat) (a : Album)
    (hf : findAlbum store (strTrim sc.url) = some a) :
    ∃ a', findAlbum (process_single_album cy sc store n).2.1 (strTrim sc.url)
        = some a' ∧
      a'.title = a.title ∧
      (a'.itemCount = a.itemCount ∨
        a'.itemCount = (mergeCount a.itemCount sc.itemCount).1) := by
  cases he : (strTrim sc.url).data.isEmpty with
  | true =>
    refine ⟨a, ?_, rfl, Or.inl rfl⟩
    simp [process_single_album, he, hf]
  | false =>
    simp only [process_single_album, he, Bool.false_eq_true, if_false, hf]
    rw [ite_triple_store]
    exact single_found_goal cy _ _ _ sc.itemCount store (strTrim sc.url) n a hf

theorem bulk_found_goal (cI : Option IVal) (store : List Album) (u : String)
    (n : Nat) (a : Album) (hf : findAlbum store u = some a) :
    ∃ a', findAlbum (setAlbum store u (countMerged a n cI)) u = some a' ∧
      a'.title = a.title ∧
      (a'.itemCount = a.itemCount ∨
        a'.itemCount = (mergeCount a.itemCount cI).1) := by
  obtain ⟨hic, hti, hur⟩ := countMerged_fields a n cI
  refine ⟨_, setAlbum_find_self store u _ ?_, hti, Or.inr hic⟩
  rw [hur]
  exact findAlbum_url hf

/-- The found-url case of one batch-ingest candidate. -/
theorem process_bulk_one_found (bc : BulkCand) (store : List Album) (n : Nat)
    (a : Album) (hf : findAlbum store (strTrim bc.url) = some a) :
    ∃ a', findAlbum (processBulkOne store n bc).1.1 (strTrim bc.url) = some a' ∧
      a'.title = a.title ∧
      (a'.itemCount = a.itemCount ∨
        a'.itemCount = (mergeCount a.itemCount bc.itemCount).1) := by
  cases he : (strTrim bc.url).data.isEmpty with
  | true =>
    refine ⟨a, ?_, rfl, Or.inl rfl⟩
    simp [processBulkOne, he, hf]
  | false =>
    simp only [processBulkOne, he, Bool.false_eq_true, if_false, hf]
    exact bulk_found_goal bc.itemCount store (strTrim bc.url) n a hf

theorem findAlbum_append_left {store : List Album} {u : String} {a : Album}
    (hf : findAlbum store u = some a) (l : List Album) :
    findAlbum (store ++ l) u = some a := by
  unfold findAlbum at *
  rw [List.find?_append, hf]
  rfl

/-- One batch-ingest step keeps every present record present, never touches
its title, and touches its itemCount only through the merge rule. -/
theorem processBulkOne_preserves (c : BulkCand) (store : List Album) (n : Nat)
    (u : String) (a : Album) (hf : findAlbum store u = some a) :
    ∃ a', findAlbum (processBulkOne store n c).1.1 u = some a' ∧
      a'.title = a.title ∧
      (a'.itemCount = a.itemCount ∨
        a'.itemCount = (mergeCount a.itemCount c.itemCount).1) := by
  by_cases hu : u = strTrim c.url
  · subst hu
    exact process_bulk_one_found c store n a hf
  · cases he : (strTrim c.url).data.isEmpty with
    | true =>
      refine ⟨a, ?_, rfl, Or.inl rfl⟩
      simp [processBulkOne, he, hf]
    | false =>
      cases hg : findAlbum store (strTrim c.url) with
      | some ex =>
        refine ⟨a, ?_, rfl, Or.inl rfl⟩
        simp only [processBulkOne, he, Bool.false_eq_true, if_false, hg]
        rw [setAlbum_find_other store (strTrim c.url) u _ hu ?_]
        · exact hf
        · obtain ⟨hic, hti, hur⟩ := countMerged_fields ex n c.itemCount
          rw [hur]
          exact findAlbum_url hg
      | none =>
        refine ⟨a, ?_, rfl, Or.inl rfl⟩
        simp only [processBulkOne, he, Bool.false_eq_true, if_false, hg]
        exact findAlbum_append_left hf _

theorem bulk_store_step (c : BulkCand) (cs : List BulkCand)
    (store : List Album) (n : Nat) :
    (process_bulk_albums (c :: cs) store n).2 =
      (process_bulk_albums cs (processBulkOne store n c).1.1
        (processBulkOne store n c).1.2).2 := by
  cases h : (processBulkOne store n c).2 <;>
    simp [process_bulk_albums, h]

/-- A whole batch-ingest run keeps every present record present and never
touches its title. -/
theorem process_bulk_title_preserved (cands : List BulkCand)
    (store : List Album) (n : Nat) (u : String) (a : Album)
    (hf : findAlbum store u = some a) :
    ∃ a', findAlbum (process_bulk_albums cands store n).2.1 u = some a' ∧
      a'.title = a.title := by
  induction cands generalizing store n a with
  | nil => exact ⟨a, hf, rfl⟩
  | cons c cs ih =>
    obtain ⟨a1, h1, ht1, _⟩ := processBulkOne_preserves c store n u a hf
    obtain ⟨a', h2, ht2⟩ := ih (processBulkOne store n c).1.1
      (processBulkOne store n c).1.2 a1 h1
    rw [bulk_store_step]
    exact ⟨a', h2, ht2.trans ht1⟩

theorem count_policy_of_or {e e' cI : Option IVal}
    (h : e' = e ∨ e' = (mergeCount e cI).1) :
    (e' ≠ e → ∃ cv, cI = some cv ∧ existingAbsentOrZero e cv = true ∧
      candDiffers e cv = true ∧ e' = some (coercedPair e cv).2) ∧
    (∀ v, e = some v → pyInt v ≠ some 0 → e' = e) := by
  constructor
  · intro hne
    rcases h with h | h
    · exact absurd h hne
    · by_cases hupd : (mergeCount e cI).2 = true
      · cases cI with
        | none => rw [mergeCount_none] at hupd; simp at hupd
        | some cv =>
          refine ⟨cv, rfl, ((mergeCount_updated_iff e cv).mp hupd).1,
            ((mergeCount_updated_iff e cv).mp hupd).2, ?_⟩
          rw [h]
          exact mergeCount_updated_val hupd
      · simp only [Bool.not_eq_true] at hupd
        rw [mergeCount_fst_of_not_updated hupd] at h
        exact absurd h hne
  · intro v hv hnz
    rcases h with h | h
    · exact h
    · rw [h, hv, mergeCount_nonzero cI hnz]

/-- C1: for every ingest (single-candidate or batch) of a candidate whose
url matches an existing record, the record's `itemCount` is overwritten
only if the candidate supplies a value, the existing `itemCount` is absent
or zero, and the new value differs from the existing one (both sides
coerced to integer, falling back to the raw comparison on coercion
failure; when overwritten, the stored value is the coerced candidate
value); in particular, an existing `itemCount` that does not coerce to
zero is never changed, whatever the candidate carries. -/
theorem itemCount_merge_policy (cy : Nat) (sc : SingleCand) (bc : BulkCand)
    (store bstore : List Album) (n m : Nat) (a b : Album) :
    (findAlbum store (strTrim sc.url) = some a →
      ∃ a', findAlbum (process_single_album cy sc store n).2.1 (strTrim sc.url)
          = some a' ∧
        (a'.itemCount ≠ a.itemCount →
          ∃ cv, sc.itemCount = some cv ∧
            existingAbsentOrZero a.itemCount cv = true ∧
            candDiffers a.itemCount cv = true ∧
            a'.itemCount = some (coercedPair a.itemCount cv).2) ∧
        (∀ v, a.itemCount = some v → pyInt v ≠ some 0 →
          a'.itemCount = a.itemCount)) ∧
    (findAlbum bstore (strTrim bc.url) = some b →
      ∃ b', findAlbum (processBulkOne bstore m bc).1.1 (strTrim bc.url)
          = some b' ∧
        (b'.itemCount ≠ b.itemCount →
          ∃ cv, bc.itemCount = some cv ∧
            existingAbsentOrZero b.itemCount cv = true ∧
            candDiffers b.itemCount cv = true ∧
            b'.itemCount = some (coercedPair b.itemCount cv).2) ∧
        (∀ v, b.itemCount = some v → pyInt v ≠ some 0 →
          b'.itemCount = b.itemCount)) := by
  constructor
  · intro hf
    obtain ⟨a', h1, _, h3⟩ := process_single_found cy sc store n a hf
    exact ⟨a', h1, (count_policy_of_or h3).1, (count_policy_of_or h3).2⟩
  · intro hf
    obtain ⟨b', h1, _, h3⟩ := process_bulk_one_found bc bstore m b hf
    exact ⟨b', h1, (count_policy_of_or h3).1, (count_policy_of_or h3).2⟩

theorem itemCount_merge_policy_witness :
    (∃ a', findAlbum (process_single_album 2026
          { url := "u", itemCount := some (IVal.i 7) }
          [{ url := "u", itemCount := some (IVal.i 5) }] 0).2.1 (strTrim "u")
        = some a' ∧ a'.itemCount = some (IVal.i 5)) ∧
    (∃ b', findAlbum (processBulkOne
          [{ url := "v", itemCount := some (IVal.i 3) }] 0
          { url := "v", itemCount := some (IVal.i 9) }).1.1 (strTrim "v")
        = some b' ∧ b'.itemCount = some (IVal.i 3)) := by
  constructor
  · obtain ⟨a', h1, _, h3⟩ :=
      (itemCount_merge_policy 2026 { url := "u", itemCount := some (IVal.i 7) }
        { url := "v", itemCount := some (IVal.i 9) }
        [{ url := "u", itemCount := some (IVal.i 5) }]
        [{ url := "v", itemCount := some (IVal.i 3) }] 0 0
        { url := "u", itemCount := some (IVal.i 5) }
        { url := "v", itemCount := some (IVal.i 3) }).1 (by decide)
    refine ⟨a', h1, ?_⟩
    rw [h3 (IVal.i 5) rfl (by decide)]
  · obtain ⟨b', h1, _, h3⟩ :=
      (itemCount_merge_policy 2026 { url := "u", itemCount := some (IVal.i 7) }
        { url := "v", itemCount := some (IVal.i 9) }
        [{ url := "u", itemCount := some (IVal.i 5) }]
        [{ url := "v", itemCount := some (IVal.i 3) }] 0 0
        { url := "u", itemCount := some (IVal.i 5) }
        { url := "v", itemCount := some (IVal.i 3) }).2 (by decide)
    refine ⟨b', h1, ?_⟩
    rw [h3 (IVal.i 3) rfl (by decide)]

/-- C2: for every record already in the store under some url, neither a
single-candidate ingest nor a whole batch-ingest run ever changes that
record's title, whatever titles the candidates carry (among the embedded
mutation paths of the reconciliation engine the title is written only on
record creation; the separate editTitle script is the only title
mutator). -/
theorem title_never_changed_by_ingest (cy : Nat) (sc : SingleCand)
    (bcs : List BulkCand) (store bstore : List Album) (n m : Nat)
    (u : String) (a b : Album) :
    (findAlbum store (strTrim sc.url) = some a →
      ∃ a', findAlbum (process_single_album cy sc store n).2.1 (strTrim sc.url)
          = some a' ∧ a'.title = a.title) ∧
    (findAlbum bstore u = some b →
      ∃ b', findAlbum (process_bulk_albums bcs bstore m).2.1 u = some b' ∧
        b'.title = b.title) := by
  constructor
  · intro hf
    obtain ⟨a', h1, h2, _⟩ := process_single_found cy sc store n a hf
    exact ⟨a', h1, h2⟩
  · intro hf
    exact process_bulk_title_preserved bcs bstore m u b hf

theorem title_never_changed_by_ingest_witness :
    (∃ a', findAlbum (process_single_album 2026
          { url := "u", title := some "New Title" }
          [{ url := "u", title := some "Old" }] 0).2.1 (strTrim "u")
        = some a' ∧ a'.title = some "Old") ∧
    (∃ b', findAlbum (process_bulk_albums
          [{ url := "u", title := some "Newer" }]
          [{ url := "u", title := some "Old" }] 0).2.1 "u"
        = some b' ∧ b'.title = some "Old") := by
  constructor
  · obtain ⟨a', h1, h2⟩ :=
      (title_never_changed_by_ingest 2026 { url := "u", title := some "New Title" }
        [{ url := "u", title := some "Newer" }]
        [{ url := "u", title := some "Old" }]
        [{ url := "u", title := some "Old" }] 0 0 "u"
        { url := "u", title := some "Old" }
        { url := "u", title := some "Old" }).1 (by decide)
    exact ⟨a', h1, h2⟩
  · obtain ⟨b', h1, h2⟩ :=
      (title_never_changed_by_ingest 2026 { url := "u", title := some "New Title" }
        [{ url := "u", title := some "Newer" }]
        [{ url := "u", title := some "Old" }]
        [{ url := "u", title := some "Old" }] 0 0 "u"
        { url := "u", title := some "Old" }
        { url := "u", title := some "Old" }).2 (by decide)
    exact ⟨b', h1, h2⟩

/-! ### Idempotence of batch ingest -/

theorem processBulkOne_skip (c : BulkCand) (store : List Album) (n : Nat)
    (he : (strTrim c.url).data.isEmpty = true) :
    processBulkOne store n c = ((store, n), .skipped) := by
  simp [processBulkOne, he]

theorem processBulkOne_found_eq (c : BulkCand) (store : List Album) (n : Nat)
    (a : Album) (he : (strTrim c.url).data.isEmpty = false)
    (hf : findAlbum store (strTrim c.url) = some a) :
    processBulkOne store n c =
      ((setAlbum store (strTrim c.url) (countMerged a n c.itemCount),
          (idBackfill a n).2.2),
        if (mergeCount (idBackfill a n).2.1.itemCount c.itemCount).2
        then .updated (idBackfill a n).1 else .unchanged (idBackfill a n).1) := by
  simp [processBulkOne, he, hf]

theorem processBulkOne_add_eq (c : BulkCand) (store : List Album) (n : Nat)
    (he : (strTrim c.url).data.isEmpty = false)
    (hf : findAlbum store (strTrim c.url) = none) :
    processBulkOne store n c =
      ((store ++
          [{ id := some (genId n).1, url := strTrim c.url,
             title := some (c.title.getD "Untitled Album"), tags := [],
             itemCount := c.itemCount }],
          (genId n).2), .added (genId n).1) := by
  simp [processBulkOne, he, hf]

theorem findAlbum_append_not_found {store : List Album} {u : String}
    (h : findAlbum store u = none) (a : Album) (ha : a.url = u) :
    findAlbum (store ++ [a]) u = some a := by
  unfold findAlbum at *
  rw [List.find?_append, h]
  simp [List.find?, ha]

/-- After processing a candidate with a nonempty url, the store holds a
record under that url whose itemCount is stable for the candidate. -/
theorem processBulkOne_establishes (c : BulkCand) (store : List Album)
    (n : Nat) (he : (strTrim c.url).data.isEmpty = false) :
    ∃ a', findAlbum (processBulkOne store n c).1.1 (strTrim c.url) = some a' ∧
      (mergeCount a'.itemCount c.itemCount).2 = false := by
  cases hg : findAlbum store (strTrim c.url) with
  | some a =>
    rw [processBulkOne_found_eq c store n a he hg]
    obtain ⟨hic, hti, hur⟩ := countMerged_fields a n c.itemCount
    refine ⟨countMerged a n c.itemCount, ?_, ?_⟩
    · exact setAlbum_find_self store (strTrim c.url) _
        (by rw [hur]; exact findAlbum_url hg)
    · rw [hic]
      exact mergeCount_self_stable a.itemCount c.itemCount
  | none =>
    rw [processBulkOne_add_eq c store n he hg]
    refine ⟨_, findAlbum_append_not_found hg _ rfl, ?_⟩
    exact mergeCount_stable_refl c.itemCount

/-- Stability of a present record for a fixed candidate value survives a
whole batch run. -/
theorem process_bulk_stable_preserved (cands : List BulkCand)
    (store : List Album) (n : Nat) (u : String) (cI : Option IVal)
    (h : ∃ a, findAlbum store u = some a ∧ (mergeCount a.itemCount cI).2 = false) :
    ∃ a', findAlbum (process_bulk_albums cands store n).2.1 u = some a' ∧
      (mergeCount a'.itemCount cI).2 = false := by
  induction cands generalizing store n with
  | nil => exact h
  | cons c cs ih =>
    rw [bulk_store_step]
    apply ih
    obtain ⟨a, hf, hs⟩ := h
    obtain ⟨a1, h1, _, hor⟩ := processBulkOne_preserves c store n u a hf
    refine ⟨a1, h1, ?_⟩
    rcases hor with h' | h'
    · rw [h']; exact hs
    · rw [h']; exact mergeCount_stable_preserved c.itemCount hs

/-- After a full batch run, every candidate with a nonempty url has a
record in the store whose itemCount is stable for it. -/
theorem process_bulk_establishes (cands : List BulkCand) (store : List Album)
    (n : Nat) :
    ∀ c ∈ cands, (strTrim c.url).data.isEmpty = false →
      ∃ a, findAlbum (process_bulk_albums cands store n).2.1 (strTrim c.url)
          = some a ∧ (mergeCount a.itemCount c.itemCount).2 = false := by
  induction cands generalizing store n with
  | nil => intro c hc; cases hc
  | cons c cs ih =>
    intro d hd he
    rw [bulk_store_step]
    rcases List.mem_cons.mp hd with rfl | hd'
    · exact process_bulk_stable_preserved cs _ _ _ _
        (processBulkOne_establishes d store n he)
    · exact ih _ _ d hd' he

/-- A batch run over a store in which every candidate already has a stable
record produces no updated and no added outcomes. -/
theorem process_bulk_unchanged (cands : List BulkCand) (store : List Album)
    (n : Nat)
    (h : ∀ c ∈ cands, (strTrim c.url).data.isEmpty = false →
      ∃ a, findAlbum store (strTrim c.url) = some a ∧
        (mergeCount a.itemCount c.itemCount).2 = false) :
    (process_bulk_albums cands store n).1.2.1 = [] ∧
    (process_bulk_albums cands store n).1.2.2 = [] := by
  induction cands generalizing store n with
  | nil => exact ⟨rfl, rfl⟩
  | cons c cs ih =>
    have htail : ∀ d ∈ cs, (strTrim d.url).data.isEmpty = false →
        ∃ a, findAlbum (processBulkOne store n c).1.1 (strTrim d.url) = some a ∧
          (mergeCount a.itemCount d.itemCount).2 = false := by
      intro d hd hde
      obtain ⟨a, hf, hs⟩ := h d (List.mem_cons_of_mem c hd) hde
      obtain ⟨a1, h1, _, hor⟩ := processBulkOne_preserves c store n (strTrim d.url) a hf
      refine ⟨a1, h1, ?_⟩
      rcases hor with h' | h'
      · rw [h']; exact hs
      · rw [h']; exact mergeCount_stable_preserved c.itemCount hs
    have ihr := ih (processBulkOne store n c).1.1 (processBulkOne store n c).1.2 htail
    cases he : (strTrim c.url).data.isEmpty with
    | true =>
      have hstep := processBulkOne_skip c store n he
      rw [hstep] at ihr
      constructor
      · simp only [process_bulk_albums, hstep]
        exact ihr.1
      · simp only [process_bulk_albums, hstep]
        exact ihr.2
    | false =>
      obtain ⟨a, hf, hs⟩ := h c (List.mem_cons_self c cs) he
      have hmc : (mergeCount (idBackfill a n).2.1.itemCount c.itemCount).2 = false := by
        rw [(idBackfill_frame a n).2.2.1]
        exact hs
      have hstep := processBulkOne_found_eq c store n a he hf
      rw [hstep] at ihr
      constructor
      · simp only [process_bulk_albums, hstep, hmc, Bool.false_eq_true, if_false]
        exact ihr.1
      · simp only [process_bulk_albums, hstep, hmc, Bool.false_eq_true, if_false]
        exact ihr.2

/-- Conversely, a batch run that reports only unchanged/skipped outcomes
can only have seen, for every candidate with a nonempty url, an existing
record already stable for it. -/
theorem all_unchanged_stable (cands : List BulkCand) (store : List Album)
    (n : Nat)
    (h1 : (process_bulk_albums cands store n).1.2.1 = [])
    (h2 : (process_bulk_albums cands store n).1.2.2 = []) :
    ∀ c ∈ cands, (strTrim c.url).data.isEmpty = false →
      ∃ a, findAlbum store (strTrim c.url) = some a ∧
        (mergeCount a.itemCount c.itemCount).2 = false := by
  induction cands generalizing store n with
  | nil => intro c hc; cases hc
  | cons c cs ih =>
    cases he : (strTrim c.url).data.isEmpty with
    | true =>
      have hstep := processBulkOne_skip c store n he
      have h1' : (process_bulk_albums cs store n).1.2.1 = [] := by
        simpa only [process_bulk_albums, hstep] using h1
      have h2' : (process_bulk_albums cs store n).1.2.2 = [] := by
        simpa only [process_bulk_albums, hstep] using h2
      intro d hd hde
      rcases List.mem_cons.mp hd with rfl | hd'
      · rw [he] at hde
        exact absurd hde (by decide)
      · exact ih store n h1' h2' d hd' hde
    | false =>
      cases hg : findAlbum store (strTrim c.url) with
      | none =>
        exfalso
        have hstep := processBulkOne_add_eq c store n he hg
        simp [process_bulk_albums, hstep] at h2
      | some a =>
        have hstep := processBulkOne_found_eq c store n a he hg
        by_cases hmc : (mergeCount (idBackfill a n).2.1.itemCount c.itemCount).2 = true
        · exfalso
          simp [process_bulk_albums, hstep, hmc] at h1
        · simp only [Bool.not_eq_true] at hmc
          have hstable : (mergeCount a.itemCount c.itemCount).2 = false := by
            rw [(idBackfill_frame a n).2.2.1] at hmc
            exact hmc
          have hcm_url : (countMerged a n c.itemCount).url = strTrim c.url := by
            rw [(countMerged_fields a n c.itemCount).2.2]
            exact findAlbum_url hg
          have hcm_ic : (countMerged a n c.itemCount).itemCount = a.itemCount := by
            rw [(countMerged_fields a n c.itemCount).1]
            exact mergeCount_fst_of_not_updated hstable
          have h1' : (process_bulk_albums cs
              (setAlbum store (strTrim c.url) (countMerged a n c.itemCount))
              (idBackfill a n).2.2).1.2.1 = [] := by
            simpa only [process_bulk_albums, hstep, hmc, Bool.false_eq_true,
              if_false] using h1
          have h2' : (process_bulk_albums cs
              (setAlbum store (strTrim c.url) (countMerged a n c.itemCount))
              (idBackfill a n).2.2).1.2.2 = [] := by
            simpa only [process_bulk_albums, hstep, hmc, Bool.false_eq_true,
              if_false] using h2
          intro d hd hde
          rcases List.mem_cons.mp hd with rfl | hd'
          · exact ⟨a, hg, hstable⟩
          · obtain ⟨a1, hf1, hs1⟩ := ih _ _ h1' h2' d hd' hde
            by_cases hud : strTrim d.url = strTrim c.url
            · rw [hud] at hf1 ⊢
              rw [setAlbum_find_self store (strTrim c.url) _ hcm_url] at hf1
              have ha1 : a1 = countMerged a n c.itemCount :=
                (Option.some.injEq _ _ ▸ hf1).symm
              refine ⟨a, hg, ?_⟩
              rw [← hcm_ic, ← ha1]
              exact hs1
            · rw [setAlbum_find_other store (strTrim c.url) (strTrim d.url) _
                hud hcm_url] at hf1
              exact ⟨a1, hf1, hs1⟩

theorem ingestBulkWrites_iff (cands : List BulkCand) (store : List Album)
    (n : Nat) :
    ingestBulkWrites cands store n = true ↔
      ((process_bulk_albums cands store n).1.2.1 ≠ [] ∨
       (process_bulk_albums cands store n).1.2.2 ≠ []) := by
  simp [ingestBulkWrites, List.isEmpty_iff]

/-- C3: batch ingest is idempotent — re-running `process_bulk_albums` with
the same input over the store persisted by the first run (the merged store
when the write guard fired, the untouched prior file contents otherwise)
yields zero updated and zero added outcomes and performs no write; and the
write guard of `main` fires exactly when at least one updated or added
outcome occurred. -/
theorem ingest_batch_idempotent (cands : List BulkCand) (store : List Album)
    (n m : Nat) :
    (process_bulk_albums cands (ingestBulkPersisted cands store n) m).1.2.1 = [] ∧
    (process_bulk_albums cands (ingestBulkPersisted cands store n) m).1.2.2 = [] ∧
    ingestBulkWrites cands (ingestBulkPersisted cands store n) m = false ∧
    (ingestBulkWrites cands store n = true ↔
      ((process_bulk_albums cands store n).1.2.1 ≠ [] ∨
       (process_bulk_albums cands store n).1.2.2 ≠ [])) := by
  by_cases hw : (process_bulk_albums cands store n).1.2.1 = [] ∧
      (process_bulk_albums cands store n).1.2.2 = []
  · have hpers : ingestBulkPersisted cands store n = store := by
      simp [ingestBulkPersisted, hw.1, hw.2]
    rw [hpers]
    have hempty := process_bulk_unchanged cands store m
      (all_unchanged_stable cands store n hw.1 hw.2)
    refine ⟨hempty.1, hempty.2, ?_, ingestBulkWrites_iff cands store n⟩
    cases hb : ingestBulkWrites cands store m with
    | false => rfl
    | true =>
      rcases (ingestBulkWrites_iff cands store m).mp hb with h | h
      · exact absurd hempty.1 h
      · exact absurd hempty.2 h
  · have hpers : ingestBulkPersisted cands store n
        = (process_bulk_albums cands store n).2.1 := by
      unfold ingestBulkPersisted
      have : ¬((process_bulk_albums cands store n).1.2.1.isEmpty = true ∧
          (process_bulk_albums cands store n).1.2.2.isEmpty = true) := by
        simpa [List.isEmpty_iff] using hw
      rcases Decidable.not_and_iff_or_not.mp this with h | h
      · simp only [Bool.not_eq_true] at h
        simp [h]
      · simp only [Bool.not_eq_true] at h
        simp [h]
    rw [hpers]
    have hempty := process_bulk_unchanged cands
      (process_bulk_albums cands store n).2.1 m
      (process_bulk_establishes cands store n)
    refine ⟨hempty.1, hempty.2, ?_, ingestBulkWrites_iff cands store n⟩
    cases hb : ingestBulkWrites cands (process_bulk_albums cands store n).2.1 m with
    | false => rfl
    | true =>
      rcases (ingestBulkWrites_iff cands _ m).mp hb with h | h
      · exact absurd hempty.1 h
      · exact absurd hempty.2 h

/-! ### Search result ordering -/

theorem keyLe_trans' (a b c : Int × Int × Int × Int)
    (hab : keyLe a b) (hbc : keyLe b c) : keyLe a c := by
  obtain ⟨a1, a2, a3, a4⟩ := a
  obtain ⟨b1, b2, b3, b4⟩ := b
  obtain ⟨c1, c2, c3, c4⟩ := c
  simp [keyLe] at *
  omega

theorem keyLe_total' (a b : Int × Int × Int × Int) : keyLe a b || keyLe b a := by
  obtain ⟨a1, a2, a3, a4⟩ := a
  obtain ⟨b1, b2, b3, b4⟩ := b
  simp [keyLe]
  omega

theorem keyLe_refl (k : Int × Int × Int × Int) : keyLe k k = true := by
  obtain ⟨k1, k2, k3, k4⟩ := k
  simp [keyLe]

/-- A record has a parsable sort date when `parse_date_for_sorting` does
not return the `(0, 0, 0)` sentinel. -/
def hasSortDate (cy : Nat) (a : Album) : Prop :=
  parse_date_for_sorting cy (a.startDate.getD "") ≠ (0, 0, 0)

/-- Lexicographic (year, month, day) comparison: `t` at or before `s`. -/
def tripleLex (t s : Int × Int × Int) : Prop :=
  t.1 < s.1 ∨ (t.1 = s.1 ∧ (t.2.1 < s.2.1 ∨ (t.2.1 = s.2.1 ∧ t.2.2 ≤ s.2.2)))

theorem keyLe_interp (cy : Nat) (x y : Album)
    (h : keyLe (sortKey cy x) (sortKey cy y) = true) :
    (hasSortDate cy y → hasSortDate cy x) ∧
    (hasSortDate cy x → hasSortDate cy y →
      tripleLex (parse_date_for_sorting cy (y.startDate.getD ""))
        (parse_date_for_sorting cy (x.startDate.getD ""))) := by
  unfold hasSortDate
  rcases hsx : parse_date_for_sorting cy (x.startDate.getD "") with ⟨x1, x2, x3⟩
  rcases hsy : parse_date_for_sorting cy (y.startDate.getD "") with ⟨y1, y2, y3⟩
  simp only [sortKey, hsx, hsy, keyLe, decide_eq_true_eq] at h
  by_cases hx0 : x1 = 0 ∧ x2 = 0 ∧ x3 = 0
  · by_cases hy0 : y1 = 0 ∧ y2 = 0 ∧ y3 = 0
    · refine ⟨fun hd => absurd ?_ hd, fun hdx _ => absurd ?_ hdx⟩
      · simp [Prod.ext_iff, hy0.1, hy0.2.1, hy0.2.2]
      · simp [Prod.ext_iff, hx0.1, hx0.2.1, hx0.2.2]
    · exfalso
      simp only [Prod.mk.injEq, hx0, hy0, if_true, if_false, ite_true,
        ite_false] at h
      omega
  · constructor
    · intro _
      simp [Prod.ext_iff]
      omega
    · intro _ hdy
      have hy0 : ¬ (y1 = 0 ∧ y2 = 0 ∧ y3 = 0) := by
        intro hc
        exact hdy (by simp [Prod.ext_iff, hc.1, hc.2.1, hc.2.2])
      simp only [Prod.mk.injEq, hx0, hy0, if_false, ite_false] at h
      unfold tripleLex
      simp only []
      omega

/-- C4: in every search result list the records with no parsable start
date appear strictly after all records with one; among dated records the
order is by (year, month, day) descending; and any two records with equal
sort keys (equal dates, or both in the no-date block) keep their relative
order from the store's underlying iteration order (stability of the sort). -/
theorem search_sort_order (cy : Nat) (l : List Album) :
    (sortAlbums cy l).Pairwise (fun x y =>
      (hasSortDate cy y → hasSortDate cy x) ∧
      (hasSortDate cy x → hasSortDate cy y →
        tripleLex (parse_date_for_sorting cy (y.startDate.getD ""))
          (parse_date_for_sorting cy (x.startDate.getD "")))) ∧
    (∀ x y, sortKey cy x = sortKey cy y → List.Sublist [x, y] l →
      List.Sublist [x, y] (sortAlbums cy l)) := by
  constructor
  · have hs := List.sorted_mergeSort
      (fun a b c => keyLe_trans' (sortKey cy a) (sortKey cy b) (sortKey cy c))
      (fun a b => keyLe_total' (sortKey cy a) (sortKey cy b)) l
    exact hs.imp (fun h => keyLe_interp cy _ _ h)
  · intro x y hk hsub
    exact List.pair_sublist_mergeSort
      (fun a b c => keyLe_trans' (sortKey cy a) (sortKey cy b) (sortKey cy c))
      (fun a b => keyLe_total' (sortKey cy a) (sortKey cy b))
      (by rw [hk]; exact keyLe_refl _) hsub

theorem search_sort_order_witness :
    List.Sublist [({ url := "a" } : Album), ({ url := "b" } : Album)]
      (sortAlbums 2026 [{ startDate := some "2024-03-01" },
        { url := "a" }, { url := "b" }]) :=
  (search_sort_order 2026 [{ startDate := some "2024-03-01" },
      { url := "a" }, { url := "b" }]).2
    { url := "a" } { url := "b" } (by decide)
    ((List.Sublist.refl _).cons _)

/-! ### Year filter -/

/-- The effective end year of a record's span: for a (truthy) endDate its
extracted year, falling back to the start year when the end year is
unparsable; for single-date records the start year itself. -/
def albumEndYear (album : Album) (ys : Int) : Int :=
  if (album.endDate.getD "").data.isEmpty then ys
  else ((extract_year_from_date (album.endDate.getD "")).getD ys)

/-- C5: a record matches a year filter `(searchStart, searchEnd)` exactly
when its year span `[albumStart, albumEnd]` (with `albumEnd` equal to
`albumStart` for single-date records) overlaps the requested span, i.e.
`albumStart <= searchEnd` and `albumEnd >= searchStart`; a record with no
parsable start date never matches any year filter. -/
theorem year_filter_overlap (album : Album) (ss se : Int) :
    (matches_year_filter album (some (ss, se)) = true ↔
      ∃ ys, extract_year_from_date (album.startDate.getD "") = some ys ∧
        ys ≤ se ∧ albumEndYear album ys ≥ ss) ∧
    (extract_year_from_date (album.startDate.getD "") = none →
      matches_year_filter album (some (ss, se)) = false) := by
  cases hx : extract_year_from_date (album.startDate.getD "") with
  | none =>
    constructor
    · simp [matches_year_filter, hx]
    · intro _
      simp [matches_year_filter, hx]
  | some ys =>
    constructor
    · cases hed : (album.endDate.getD "").data.isEmpty with
      | true =>
        simp only [matches_year_filter, hx, albumEndYear]
        rw [hed]
        simp only [Bool.not_true, Bool.false_eq_true, if_false, if_true,
          ite_true, ite_false, decide_eq_true_eq, Option.some.injEq]
        constructor
        · intro hm
          exact ⟨ys, rfl, by omega⟩
        · rintro ⟨ys', hys', h1, h2⟩
          subst hys'
          omega
      | false =>
        simp only [matches_year_filter, hx, albumEndYear]
        rw [hed]
        simp only [Bool.not_false, Bool.false_eq_true, if_false, if_true,
          ite_true, ite_false, decide_eq_true_eq, Option.some.injEq]
        constructor
        · intro hm
          exact ⟨ys, rfl, by omega⟩
        · rintro ⟨ys', hys', h1, h2⟩
          subst hys'
          omega
    · intro hnone
      exact (Option.some_ne_none ys hnone).elim

/-- A concrete record spanning 2020-2025, for the year-filter witness. -/
def spanAlbum : Album :=
  { startDate := some "2020-01-01", endDate := some "2025-01-01" }

/-- A concrete record with no parsable date. -/
def undatedAlbum : Album :=
  { title := some "undated" }

theorem year_filter_overlap_witness :
    matches_year_filter spanAlbum (some (2023, 2023)) = true ∧
    matches_year_filter spanAlbum (some (2026, 2026)) = false ∧
    matches_year_filter undatedAlbum (some (2020, 2025)) = false := by
  refine ⟨?_, ?_, ?_⟩
  · exact (year_filter_overlap spanAlbum 2023 2023).1.mpr
      ⟨2020, by decide, by decide, by decide⟩
  · have h := (year_filter_overlap spanAlbum 2026 2026).1
    have hno : ¬ ∃ ys, extract_year_from_date (spanAlbum.startDate.getD "")
        = some ys ∧ ys ≤ 2026 ∧ albumEndYear spanAlbum ys ≥ 2026 := by
      rintro ⟨ys, hys, h1, h2⟩
      have he : extract_year_from_date (spanAlbum.startDate.getD "")
          = some 2020 := by decide
      rw [he] at hys
      have hys' : ys = 2020 := (Option.some_inj.mp hys).symm
      subst hys'
      have he2 : albumEndYear spanAlbum 2020 = 2025 := by decide
      omega
    cases hb : matches_year_filter spanAlbum (some (2026, 2026)) with
    | false => rfl
    | true => exact absurd (h.mp hb) hno
  · exact (year_filter_overlap undatedAlbum 2020 2025).2 (by decide)

/-! ### Tag toggling (`toggle_tag.py`) -/

/-- Outcome of a toggleTag invocation, mirroring the notification branches
of `toggle_tag.main` (lines 104-169). -/
inductive TogOutcome where
  | appliedAdd
  | alreadyHas
  | appliedRemove
  | notHas
  | otherAction
  | notFound
  | invalidInput
deriving DecidableEq, Repr

/-- The album-scan loop of `toggle_tag.main` (lines 106-158): find the
first record with the url, mutate its tag list in place, break.  The
source's `if "tags" not in album: album["tags"] = []` is the identity
here because an absent key and an empty list are both modelled as `[]`. -/
def toggleLoop (u tg act : String) : List Album → List Album × TogOutcome
  | [] => ([], .notFound)
  | a :: rest =>
    if a.url = u then
      if act = "add" then
        if tg ∈ a.tags then (a :: rest, .alreadyHas)
        else ({ a with tags := a.tags ++ [tg] } :: rest, .appliedAdd)
      else if act = "remove" then
        if tg ∈ a.tags then
          ({ a with tags := a.tags.erase tg } :: rest, .appliedRemove)
        else (a :: rest, .notHas)
      else (a :: rest, .otherAction)
    else
      let r := toggleLoop u tg act rest
      (a :: r.1, r.2)

/-- Embeds `toggle_tag.main`: returns the resulting store, the outcome,
and whether `write_database` was called.  The source calls
`write_database(albums)` whenever the album was found (line 172),
regardless of whether the tag operation was applied; only the not-found
and invalid-input paths exit before the write. -/
def toggle_tag_main (albums : List Album) (u tg act : String) :
    List Album × TogOutcome × Bool :=
  if u.data.isEmpty || tg.data.isEmpty then (albums, .invalidInput, false)
  else
    let r := toggleLoop u tg act albums
    match r.2 with
    | .notFound => (albums, .notFound, false)
    | oc => (r.1, oc, true)

/-- C6 counterexample: adding a tag that is already present is a
non-applied outcome, yet the store file is rewritten — refuting "the store
file is rewritten if and only if the outcome is applied". -/
theorem toggle_write_not_iff_applied :
    (toggle_tag_main [{ url := "u", tags := ["t"] }] "u" "t" "add").2.1
      = TogOutcome.alreadyHas ∧
    (toggle_tag_main [{ url := "u", tags := ["t"] }] "u" "t" "add").2.2
      = true := by
  decide

theorem toggleLoop_notFound_iff (u tg act : String) (albums : List Album) :
    (toggleLoop u tg act albums).2 = .notFound ↔ ∀ a ∈ albums, a.url ≠ u := by
  induction albums with
  | nil => simp [toggleLoop]
  | cons a rest ih =>
    by_cases ha : a.url = u
    · simp only [toggleLoop, ha, if_true, ite_true]
      constructor
      · intro h
        split_ifs at h
      · intro h
        exact absurd ha (h a (List.mem_cons_self a rest))
    · simp only [toggleLoop, ha, if_false, ite_false, List.mem_cons]
      rw [ih]
      constructor
      · intro h b hb
        rcases hb with rfl | hb
        · exact ha
        · exact h b hb
      · intro h b hb
        exact h b (Or.inr hb)

/-- C6 amended: for nonempty url and tag, `toggleTag` rewrites the store
file if and only if the url is found in the store — both applied and
non-applied outcomes on a found record trigger the rewrite; only the
not-found (or invalid-input) paths perform no write. -/
theorem toggle_write_iff_found (albums : List Album) (u tg act : String)
    (hu : u.data.isEmpty = false) (ht : tg.data.isEmpty = false) :
    (toggle_tag_main albums u tg act).2.2 = true ↔ ∃ a ∈ albums, a.url = u := by
  unfold toggle_tag_main
  rw [hu, ht]
  simp only [Bool.or_self, Bool.false_eq_true, if_false, ite_false]
  cases hoc : (toggleLoop u tg act albums).2 with
  | notFound =>
    constructor
    · intro h
      exact Bool.noConfusion h
    · intro ⟨a, ha, hau⟩
      exact absurd hau ((toggleLoop_notFound_iff u tg act albums).mp hoc a ha)
  | appliedAdd =>
    constructor
    · intro _
      by_contra hno
      push_neg at hno
      have := (toggleLoop_notFound_iff u tg act albums).mpr hno
      rw [hoc] at this
      cases this
    · intro _
      trivial
  | alreadyHas =>
    constructor
    · intro _
      by_contra hno
      push_neg at hno
      have := (toggleLoop_notFound_iff u tg act albums).mpr hno
      rw [hoc] at this
      cases this
    · intro _
      trivial
  | appliedRemove =>
    constructor
    · intro _
      by_contra hno
      push_neg at hno
      have := (toggleLoop_notFound_iff u tg act albums).mpr hno
      rw [hoc] at this
      cases this
    · intro _
      trivial
  | notHas =>
    constructor
    · intro _
      by_contra hno
      push_neg at hno
      have := (toggleLoop_notFound_iff u tg act albums).mpr hno
      rw [hoc] at this
      cases this
    · intro _
      trivial
  | otherAction =>
    constructor
    · intro _
      by_contra hno
      push_neg at hno
      have := (toggleLoop_notFound_iff u tg act albums).mpr hno
      rw [hoc] at this
      cases this
    · intro _
      trivial
  | invalidInput =>
    constructor
    · intro _
      by_contra hno
      push_neg at hno
      have := (toggleLoop_notFound_iff u tg act albums).mpr hno
      rw [hoc] at this
      cases this
    · intro _
      trivial

theorem toggle_write_iff_found_witness :
    (toggle_tag_main [{ url := "u", tags := ["t"] }] "u" "t" "add").2.2
      = true :=
  (toggle_write_iff_found [{ url := "u", tags := ["t"] }] "u" "t" "add"
    (by decide) (by decide)).mpr
    ⟨{ url := "u", tags := ["t"] }, List.mem_cons_self _ _, rfl⟩

/-! ### DateNormalizer contract -/

theorem digCh_isDigit (n : Nat) : (digCh n).isDigit = true := by
  unfold digCh
  split <;> rfl

theorem fmtDate_canonical (y m d : Nat) :
    isCanonicalDate (fmtDate y m d) = true := by
  simp [fmtDate, isCanonicalDate, digCh_isDigit]

/-- C7 counterexample: on the unparseable input "garbage" the normalizer
returns the original string — neither a canonical `YYYY-MM-DD` date nor a
null value — refuting "on unparseable input it returns null, never some
other non-canonical value". -/
theorem normalize_garbage_not_null :
    convert_date_to_storage_format 2026 "garbage" = "garbage" ∧
    isCanonicalDate "garbage" = false := by
  decide

/-- C7 amended: `convert_date_to_storage_format` is total (never aborts
the enclosing ingest) and returns either a string in canonical
`YYYY-MM-DD` shape or the input unchanged; in particular on unparseable
input it returns the original string rather than null. -/
theorem normalize_canonical_or_original (cy : Nat) (s : String) :
    convert_date_to_storage_format cy s = s ∨
    isCanonicalDate (convert_date_to_storage_format cy s) = true := by
  unfold convert_date_to_storage_format
  by_cases h1 : s.data.isEmpty = true
  · rw [if_pos h1]
    exact Or.inl rfl
  · rw [if_neg h1]
    by_cases h2 : isCanonicalDate (strTrim s) = true
    · rw [if_pos h2]
      exact Or.inr h2
    · rw [if_neg h2]
      by_cases h3 : strHas s ',' = true
      · rw [if_pos h3]
        cases hp : strptimeBdY (strTrimL s.data) with
        | some t =>
          obtain ⟨y, m, d⟩ := t
          exact Or.inr (fmtDate_canonical y m d)
        | none => exact Or.inl rfl
      · rw [if_neg h3]
        cases hp : strptimeBdY (strTrimL s.data ++ (", " ++ toString cy).data) with
        | some t =>
          obtain ⟨y, m, d⟩ := t
          exact Or.inr (fmtDate_canonical y m d)
        | none => exact Or.inl rfl

/-! ### Date editing (`edit_date.py`) -/

/-- Embeds `datetime.strptime(s, "%Y-%m-%d")` as used by
`edit_date.validate_date` (lines 72-78): CPython's `_strptime` regex
(four-digit year, one- or two-digit month 1-12, one- or two-digit or
space-padded day 1-31, full match) followed by the `datetime` constructor's
calendar check.  Note the month and day need NOT be zero-padded. -/
def parseYmd (s : String) : Option (Nat × Nat × Nat) :=
  match s.data with
  | y1 :: y2 :: y3 :: y4 :: '-' :: rest =>
    if y1.isDigit && y2.isDigit && y3.isDigit && y4.isDigit then
      let y := digitsToNat [y1, y2, y3, y4]
      let tryDay : List Char → Option Nat := fun r =>
        match r with
        | [d1, d2] =>
          if d1.isDigit && d2.isDigit then
            if 1 ≤ digitsToNat [d1, d2] && digitsToNat [d1, d2] ≤ 31 then
              some (digitsToNat [d1, d2])
            else none
          else if d1 = ' ' && d2.isDigit && '1' ≤ d2 then
            some (digitsToNat [d2])
          else none
        | [d1] => if d1.isDigit && '1' ≤ d1 then some (digitsToNat [d1]) else none
        | _ => none
      let md : Option (Nat × Nat) :=
        match rest with
        | m1 :: m2 :: '-' :: r2 =>
          -- the character two past the month start is the literal '-', so the
          -- month is two digits; a one-digit-month reading would need '-' right
          -- after m1, leaving a day that starts with '-', which never matches
          if m1.isDigit && m2.isDigit && 1 ≤ digitsToNat [m1, m2] &&
              digitsToNat [m1, m2] ≤ 12 then
            (tryDay r2).map (fun d => (digitsToNat [m1, m2], d))
          else none
        | m1 :: '-' :: r1 =>
          -- one-digit month 1-9 followed by the literal '-' and the day
          if m1.isDigit && '1' ≤ m1 then
            (tryDay r1).map (fun d => (digitsToNat [m1], d))
          else none
        | _ => none
      match md with
      | some (m, d) => if 1 ≤ y && d ≤ daysInMonth y m then some (y, m, d) else none
      | none => none
    else none
  | _ => none

/-- Embeds `edit_date.validate_date`. -/
def validate_date (s : String) : Bool :=
  (parseYmd s).isSome

/-- Embeds Python `"--" in s`. -/
def containsDD : List Char → Bool
  | '-' :: '-' :: _ => true
  | _ :: rest => containsDD rest
  | [] => false

/-- Lexicographic code-point comparison of two character lists: Python's
`<` on strings (a strict prefix is smaller). -/
def charListLt : List Char → List Char → Bool
  | [], [] => false
  | [], _ :: _ => true
  | _ :: _, [] => false
  | a :: as, b :: bs =>
    if a.toNat < b.toNat then true
    else if b.toNat < a.toNat then false
    else charListLt as bs

/-- Embeds Python `s.split("--")`. -/
def splitDD : List Char → List Char → List (List Char)
  | [], acc => [acc.reverse]
  | '-' :: '-' :: rest, acc => acc.reverse :: splitDD rest []
  | c :: rest, acc => splitDD rest (c :: acc)

/-- Embeds `edit_date.parse_date_input` (lines 80-115): returns
`(startDate, endDate?, dateRange)` or `none` on any format error,
including a range whose start is lexicographically after its end. -/
def parse_date_input (s : String) : Option (String × Option String × String) :=
  if containsDD (strTrim s).data then
    match splitDD (strTrim s).data [] with
    | [p0, p1] =>
      if validate_date (strTrim (String.mk p0)) &&
          validate_date (strTrim (String.mk p1)) then
        if charListLt (strTrim (String.mk p1)).data
            (strTrim (String.mk p0)).data then none
        else
          some (strTrim (String.mk p0), some (strTrim (String.mk p1)),
            strTrim (String.mk p0) ++ "--" ++ strTrim (String.mk p1))
      else none
    | _ => none
  else
    if validate_date (strTrim s) then some (strTrim s, none, strTrim s)
    else none

inductive EditDateErr where
  | formatError
  | urlMissing
  | notFound
deriving DecidableEq, Repr

/-- The find-and-update loop of `edit_date.main` (lines 208-223): the
first record with the url gets `dateRange`/`startDate` set and `endDate`
set (range input) or removed (single-date input). -/
def editDateLoop (u sd dr : String) (ed : Option String) :
    List Album → Option (List Album)
  | [] => none
  | a :: rest =>
    if a.url = u then
      some ({ a with dateRange := some dr, startDate := some sd, endDate := ed } :: rest)
    else (editDateLoop u sd dr ed rest).map (a :: ·)

/-- Embeds `edit_date.main` (lines 150-264) over an in-memory store:
date input parsed first (format errors abort before any mutation), then
the record is located by url and its date fields replaced. -/
def edit_date_main (albums : List Album) (albumUrl dateInput : String) :
    Except EditDateErr (List Album) :=
  match parse_date_input dateInput with
  | none => .error .formatError
  | some (sd, ed, dr) =>
    if albumUrl.data.isEmpty then .error .urlMissing
    else
      match editDateLoop albumUrl sd dr ed albums with
      | some albums' => .ok albums'
      | none => .error .notFound

theorem parse_date_input_range {din sd e dr : String}
    (h : parse_date_input din = some (sd, some e, dr)) :
    charListLt e.data sd.data = false ∧ dr = sd ++ "--" ++ e := by
  unfold parse_date_input at h
  repeat' split at h
  all_goals simp_all
  obtain ⟨h1, h2, h3⟩ := h
  rw [← h3, ← h1, ← h2]

theorem parse_date_input_single {din sd dr : String}
    (h : parse_date_input din = some (sd, none, dr)) : dr = sd := by
  unfold parse_date_input at h
  repeat' split at h
  all_goals simp_all
  obtain ⟨h1, h2⟩ := h
  rw [← h1, ← h2]

theorem editDateLoop_spec {u sd dr : String} {ed : Option String}
    {albums albums' : List Album}
    (h : editDateLoop u sd dr ed albums = some albums') :
    ∃ a, findAlbum albums u = some a ∧
      findAlbum albums' u
        = some { a with dateRange := some dr, startDate := some sd,
                        endDate := ed } := by
  induction albums generalizing albums' with
  | nil => cases h
  | cons b rest ih =>
    by_cases hb : b.url = u
    · simp only [editDateLoop, hb, if_true, ite_true, Option.some.injEq] at h
      subst h
      refine ⟨b, ?_, ?_⟩
      · rw [findAlbum_cons, if_pos hb]
      · rw [findAlbum_cons]
        simp [hb]
    · simp only [editDateLoop, hb, if_false, ite_false] at h
      cases hr : editDateLoop u sd dr ed rest with
      | none =>
        rw [hr] at h
        cases h
      | some rest' =>
        rw [hr] at h
        simp only [Option.map_some', Option.some.injEq] at h
        subst h
        obtain ⟨a, h1, h2⟩ := ih hr
        refine ⟨a, ?_, ?_⟩
        · rw [findAlbum_cons, if_neg hb]
          exact h1
        · rw [findAlbum_cons, if_neg hb]
          exact h2

/-- C8 counterexample: the input "2025-1-5" passes Python's `%Y-%m-%d`
validation (one-digit month and day are accepted by `strptime`), so the
edit succeeds and stores a `dateRange`/`startDate` that is NOT in
canonical zero-padded `YYYY-MM-DD` shape — refuting "dateRange is exactly
the two canonical dates joined by '--' (or the single canonical date)". -/
theorem edit_date_noncanonical :
    (edit_date_main [{ url := "u" }] "u" "2025-1-5").toOption
      = some [{ url := "u", dateRange := some "2025-1-5",
                startDate := some "2025-1-5" }] ∧
    isCanonicalDate "2025-1-5" = false := by
  decide

/-- C8 amended: a two-date input whose start date is lexicographically
after its end date is rejected as a format error before any mutation; and
after every successful editDate the targeted record holds exactly the two
validated input dates with startDate lexicographically at most endDate and
dateRange their "--" join (or the single validated date, with endDate
removed) — but the validated dates are as written by the user, which
Python's `%Y-%m-%d` check also accepts unpadded, so they need not be in
canonical zero-padded shape. -/
theorem edit_date_invariants (albums : List Album) (u din : String) :
    (∀ p0 p1, containsDD (strTrim din).data = true →
      splitDD (strTrim din).data [] = [p0, p1] →
      charListLt (strTrim (String.mk p1)).data (strTrim (String.mk p0)).data
        = true →
      edit_date_main albums u din = .error .formatError) ∧
    (∀ sd ed dr albums', parse_date_input din = some (sd, ed, dr) →
      edit_date_main albums u din = .ok albums' →
      ∃ r, findAlbum albums' u = some r ∧
        r.startDate = some sd ∧ r.endDate = ed ∧ r.dateRange = some dr ∧
        (∀ e, ed = some e →
          charListLt e.data sd.data = false ∧ dr = sd ++ "--" ++ e) ∧
        (ed = none → dr = sd)) := by
  constructor
  · intro p0 p1 hdd hsp hlt
    have hparse : parse_date_input din = none := by
      unfold parse_date_input
      rw [if_pos hdd, hsp]
      dsimp only
      by_cases hv : (validate_date (strTrim (String.mk p0)) &&
          validate_date (strTrim (String.mk p1))) = true
      · rw [if_pos hv, if_pos hlt]
      · rw [if_neg hv]
    unfold edit_date_main
    rw [hparse]
  · intro sd ed dr albums' hp hok
    unfold edit_date_main at hok
    rw [hp] at hok
    dsimp only at hok
    by_cases hu : u.data.isEmpty = true
    · rw [if_pos hu] at hok
      cases hok
    · rw [if_neg hu] at hok
      cases hl : editDateLoop u sd dr ed albums with
      | none =>
        rw [hl] at hok
        cases hok
      | some albums2 =>
        rw [hl] at hok
        rw [show Except.ok (ε := EditDateErr) albums2 = .ok albums' ↔
          albums2 = albums' from by
            constructor
            · intro hh
              cases hh
              rfl
            · intro hh
              rw [hh]] at hok
        subst hok
        obtain ⟨a, h1, h2⟩ := editDateLoop_spec hl
        refine ⟨_, h2, by simp, by simp, by simp, ?_, ?_⟩
        · intro e he
          subst he
          exact parse_date_input_range hp
        · intro he
          subst he
          exact parse_date_input_single hp

/-- The record produced by the successful edit in the C8 witness. -/
def editedAlbumW : Album :=
  { url := "u", dateRange := some "2020-11-10--2025-11-10",
    startDate := some "2020-11-10", endDate := some "2025-11-10" }

theorem edit_date_invariants_witness :
    edit_date_main [{ url := "u" }] "u" "2025-11-10--2020-11-10"
      = .error .formatError ∧
    (∃ r, findAlbum [editedAlbumW] "u" = some r ∧
      r.startDate = some "2020-11-10" ∧
      r.endDate = some "2025-11-10" ∧
      r.dateRange = some "2020-11-10--2025-11-10" ∧
      (∀ e, (some "2025-11-10" : Option String) = some e →
        charListLt e.data "2020-11-10".data = false ∧
        "2020-11-10--2025-11-10" = "2020-11-10" ++ "--" ++ e) ∧
      ((some "2025-11-10" : Option String) = none →
        "2020-11-10--2025-11-10" = "2020-11-10")) := by
  constructor
  · exact (edit_date_invariants [{ url := "u" }] "u" "2025-11-10--2020-11-10").1
      "2025-11-10".data "2020-11-10".data (by decide) (by decide) (by decide)
  · exact (edit_date_invariants [{ url := "u" }] "u" "2020-11-10--2025-11-10").2
      "2020-11-10" (some "2025-11-10") "2020-11-10--2025-11-10"
      [editedAlbumW] (by decide) (by rfl)

/-! ### Deletion (`delete_album.py`) -/

inductive DelErr where
  | missingUrl
  | notFound
  | notDeleted
deriving DecidableEq, Repr

/-- Embeds `delete_album.main` (lines 63-162) over an in-memory store:
every record whose url equals the argument is dropped (the source loop
appends non-matching records to `albums_filtered`); an untouched store
means `NotFoundError`. -/
def delete_album_main (albums : List Album) (u : String) :
    Except DelErr (List Album) :=
  if u.data.isEmpty then .error .missingUrl
  else if albums.any (fun a => a.url == u) then
    if (albums.filter (fun a => !(a.url == u))).length = albums.length then
      .error .notDeleted
    else .ok (albums.filter (fun a => !(a.url == u)))
  else .error .notFound

theorem delete_filter_length (albums : List Album) (u : String) :
    (albums.filter (fun a => !(a.url == u))).length +
      (albums.filter (fun a => a.url == u)).length = albums.length := by
  induction albums with
  | nil => rfl
  | cons a rest ih =>
    by_cases h : a.url = u <;> simp [List.filter_cons, h] <;> omega

/-- C9: on a store holding exactly one record with the given (nonempty)
url, `deleteAlbum` succeeds and removes exactly that record — the result
is the original store with the url's record filtered out, one shorter, all
other records kept in order — and repeating the call on the result returns
`NotFoundError`. -/
theorem delete_album_exactly_one (albums : List Album) (u : String)
    (hu : u.data.isEmpty = false)
    (hcount : (albums.filter (fun a => a.url == u)).length = 1) :
    delete_album_main albums u
      = .ok (albums.filter (fun a => !(a.url == u))) ∧
    (albums.filter (fun a => !(a.url == u))).length + 1 = albums.length ∧
    delete_album_main (albums.filter (fun a => !(a.url == u))) u
      = .error .notFound := by
  have hflen := delete_filter_length albums u
  have hlen2 : (albums.filter (fun a => !(a.url == u))).length + 1
      = albums.length := by omega
  have hany : albums.any (fun a => a.url == u) = true := by
    have hne : albums.filter (fun a => a.url == u) ≠ [] := by
      intro hnil
      rw [hnil] at hcount
      simp at hcount
    obtain ⟨x, hx⟩ := List.exists_mem_of_ne_nil _ hne
    have hx' := List.mem_filter.mp hx
    exact List.any_eq_true.mpr ⟨x, hx'.1, hx'.2⟩
  have hany2 : (albums.filter (fun a => !(a.url == u))).any
      (fun a => a.url == u) = false := by
    cases hb : (albums.filter (fun a => !(a.url == u))).any
        (fun a => a.url == u) with
    | false => rfl
    | true =>
      obtain ⟨x, hxm, hxp⟩ := List.any_eq_true.mp hb
      have := (List.mem_filter.mp hxm).2
      rw [hxp] at this
      cases this
  refine ⟨?_, hlen2, ?_⟩
  · unfold delete_album_main
    rw [hu]
    simp only [Bool.false_eq_true, if_false, hany, if_true, ite_true]
    rw [if_neg (by omega)]
  · unfold delete_album_main
    rw [hu]
    simp only [Bool.false_eq_true, if_false, hany2, ite_false]

theorem delete_album_exactly_one_witness :
    delete_album_main [{ url := "u" }, { url := "v" }] "u"
      = .ok [{ url := "v" }] ∧
    ([({ url := "u" } : Album), { url := "v" }].filter
      (fun a => !(a.url == "u"))).length + 1 = 2 ∧
    delete_album_main [{ url := "v" }] "u" = .error .notFound := by
  have h := delete_album_exactly_one [{ url := "u" }, { url := "v" }] "u"
    (by decide) (by decide)
  have hfe : ([({ url := "u" } : Album), { url := "v" }].filter
      (fun a => !(a.url == "u"))) = [{ url := "v" }] := by decide
  refine ⟨?_, ?_, ?_⟩
  · rw [← hfe]
    exact h.1
  · exact h.2.1
  · rw [← hfe]
    exact h.2.2

/-! ### Database loading (`read_existing_albums` / `read_database`) -/

/-- The line loop of `search_albums.read_database` (lines 56-73),
parameterised by the external JSON line parser (`json.loads` plus the
record decoding): nonempty stripped lines are parsed and collected, and a
parse failure raises, which the source catches by returning the EMPTY
list, discarding everything parsed so far. -/
def read_database_lines (parse : String → Option Album) :
    List String → List Album → List Album
  | [], acc => acc.reverse
  | l :: ls, acc =>
    if (strTrim l).data.isEmpty then read_database_lines parse ls acc
    else
      match parse (strTrim l) with
      | none => []
      | some a => read_database_lines parse ls (a :: acc)

/-- Embeds `search_albums.read_database`. -/
def read_database (parse : String → Option Album) (lines : List String) :
    List Album :=
  read_database_lines parse lines []

/-- The line loop of `unified_add_albums.read_existing_albums`
(lines 85-108): records keyed by url into an insertion-ordered dict,
records with empty url skipped, missing ids backfilled; any parse failure
raises and the source returns the EMPTY dict. -/
def read_existing_loop (parse : String → Option Album) :
    List String → List Album → Nat → List Album × Nat
  | [], acc, n => (acc, n)
  | l :: ls, acc, n =>
    if (strTrim l).data.isEmpty then read_existing_loop parse ls acc n
    else
      match parse (strTrim l) with
      | none => ([], n)
      | some album =>
        if album.url.data.isEmpty then read_existing_loop parse ls acc n
        else
          match album.id with
          | none => read_existing_loop parse ls
              (setAlbum acc album.url { album with id := some (genId n).1 })
              (genId n).2
          | some _ => read_existing_loop parse ls (setAlbum acc album.url album) n

/-- Embeds `unified_add_albums.read_existing_albums`. -/
def read_existing_albums (parse : String → Option Album)
    (lines : List String) (n : Nat) : List Album × Nat :=
  read_existing_loop parse lines [] n

theorem read_database_lines_bad (parse : String → Option Album)
    (lines : List String) (acc : List Album)
    (h : ∃ l ∈ lines, (strTrim l).data.isEmpty = false ∧
      parse (strTrim l) = none) :
    read_database_lines parse lines acc = [] := by
  induction lines generalizing acc with
  | nil =>
    obtain ⟨l, hl, _⟩ := h
    cases hl
  | cons l ls ih =>
    obtain ⟨l', hl', hne, hp⟩ := h
    rcases List.mem_cons.mp hl' with rfl | hl2
    · simp only [read_database_lines, hne, Bool.false_eq_true, if_false,
        ite_false, hp]
    · cases he : (strTrim l).data.isEmpty with
      | true =>
        simp only [read_database_lines, he, if_true, ite_true]
        exact ih acc ⟨l', hl2, hne, hp⟩
      | false =>
        simp only [read_database_lines, he, Bool.false_eq_true, if_false,
          ite_false]
        cases hq : parse (strTrim l) with
        | none => rfl
        | some a => exact ih (a :: acc) ⟨l', hl2, hne, hp⟩

theorem read_existing_loop_bad (parse : String → Option Album)
    (lines : List String) (acc : List Album) (n : Nat)
    (h : ∃ l ∈ lines, (strTrim l).data.isEmpty = false ∧
      parse (strTrim l) = none) :
    (read_existing_loop parse lines acc n).1 = [] := by
  induction lines generalizing acc n with
  | nil =>
    obtain ⟨l, hl, _⟩ := h
    cases hl
  | cons l ls ih =>
    obtain ⟨l', hl', hne, hp⟩ := h
    rcases List.mem_cons.mp hl' with rfl | hl2
    · simp only [read_existing_loop, hne, Bool.false_eq_true, if_false,
        ite_false, hp]
    · cases he : (strTrim l).data.isEmpty with
      | true =>
        simp only [read_existing_loop, he, if_true, ite_true]
        exact ih acc n ⟨l', hl2, hne, hp⟩
      | false =>
        simp only [read_existing_loop, he, Bool.false_eq_true, if_false,
          ite_false]
        cases hq : parse (strTrim l) with
        | none => rfl
        | some album =>
          cases hau : album.url.data.isEmpty with
          | true =>
            simp only [hau, if_true, ite_true]
            exact ih acc n ⟨l', hl2, hne, hp⟩
          | false =>
            simp only [hau, Bool.false_eq_true, if_false, ite_false]
            cases hai : album.id with
            | none => exact ih _ _ ⟨l', hl2, hne, hp⟩
            | some i => exact ih _ _ ⟨l', hl2, hne, hp⟩

/-- C10: if any nonempty line of the stored collection fails to parse, the
ingest-side loader (`read_existing_albums`) and the search-side loader
(`read_database`) both return the EMPTY collection — every record,
including those parsed before the failing line, is silently dropped. -/
theorem loader_drops_all_on_parse_error (parse : String → Option Album)
    (lines : List String) (n : Nat)
    (h : ∃ l ∈ lines, (strTrim l).data.isEmpty = false ∧
      parse (strTrim l) = none) :
    read_database parse lines = [] ∧
    (read_existing_albums parse lines n).1 = [] :=
  ⟨read_database_lines_bad parse lines [] h,
   read_existing_loop_bad parse lines [] n h⟩

theorem loader_drops_all_on_parse_error_witness :
    read_database (fun s => if s = "good" then some { url := "u" } else none)
      ["good", "bad"] = [] ∧
    (read_existing_albums
      (fun s => if s = "good" then some { url := "u" } else none)
      ["good", "bad"] 0).1 = [] :=
  loader_drops_all_on_parse_error
    (fun s => if s = "good" then some { url := "u" } else none)
    ["good", "bad"] 0
    ⟨"bad", by decide, by decide, by decide⟩
